import Mathlib

/-!
# Verification of `jittor/optim.py`

Shallow embedding of the optimizer module (`Optimizer`, `SGD`, `Adam`) of
`src/python/jittor/optim.py`.  Tensors are modelled elementwise: each tensor
is a single rational value (every tensor operation in the source is
elementwise, so a one-element tensor is fully general).  The external engine
(`jt`) is modelled by an `Env` of abstract functions:

* `Env.grad k`     : the `k`-th output of the batched backward call
                     `jt.grad(loss, params_has_grad)`;
* `Env.reduceMean` : `x.mpi_all_reduce("mean")`, the cross-worker mean;
* `Env.sqrt`       : `jt.sqrt`;
* `Env.mpi`        : the `jt.mpi` flag.

Python exceptions (failed `assert`s, attribute errors when a group dict ends
up inside a parameter list, `None` arithmetic) are modelled by `Option`:
`none` is an escaped exception.  `jt.sync` (forced materialization) and
`detach_inplace` (graph detachment) have no numeric effect and are not
modelled numerically.
-/

/-- Sequencing of a fallible operation over a list (a Python `for` loop whose
body may raise): `none` as soon as one element raises. -/
def mapMOpt (f : α → Option β) : List α → Option (List β)
  | [] => some []
  | a :: l =>
    match f a with
    | none => none
    | some b =>
      match mapMOpt f l with
      | none => none
      | some l' => some (b :: l')

/-- A parameter tensor: its (elementwise) value and its stop-gradient flag. -/
structure Param where
  value : ℚ
  is_stop_grad : Bool
deriving DecidableEq, Repr

/-- A user-supplied parameter-group dictionary
`{'params': [...], <hyperparameter overrides>}`: the `params` entry plus the
optional per-group hyperparameter overrides that `pg.get(key, default)`
can find. -/
structure GroupSpec where
  params : List Param
  lr : Option ℚ := none
  momentum : Option ℚ := none
  weight_decay : Option ℚ := none
  dampening : Option ℚ := none
  nesterov : Option Bool := none
  eps : Option ℚ := none
  betas : Option (ℚ × ℚ) := none
deriving DecidableEq, Repr

/-- One element of the sequence passed to an optimizer constructor: either a
raw parameter or a group dictionary (`isinstance(params[0], dict)` decides
which form the whole sequence is in). -/
inductive PEntry where
  | param (p : Param)
  | dict (g : GroupSpec)
deriving DecidableEq, Repr

/-- `isinstance(e, dict)`. -/
def PEntry.isDict : PEntry → Bool
  | .param _ => false
  | .dict _ => true

/-- Using an entry as a parameter tensor (attribute access such as
`p.is_stop_grad()` or `p.shape`): raises (`none`) on a dict. -/
def PEntry.asParam : PEntry → Option Param
  | .param p => some p
  | .dict _ => none

/-- A parameter group as stored in `self.param_groups`: the dict's keys.
`grads` is absent until `pre_step` fills it (modelled as `[]`); `values`
and `m` are added by `SGD.__init__` / `Adam.__init__` (modelled as `[]`
until then).  In the raw-parameter constructor form the stored `params`
list is the original input sequence, so its elements are `PEntry`s. -/
structure ParamGroup where
  params : List PEntry
  grads : List (Option ℚ) := []
  values : List ℚ := []
  m : List ℚ := []
  lr : Option ℚ := none
  momentum : Option ℚ := none
  weight_decay : Option ℚ := none
  dampening : Option ℚ := none
  nesterov : Option Bool := none
  eps : Option ℚ := none
  betas : Option (ℚ × ℚ) := none
deriving DecidableEq, Repr

/-- The dict a user passed, viewed as a stored parameter group. -/
def GroupSpec.toParamGroup (g : GroupSpec) : ParamGroup :=
  { params := g.params.map PEntry.param
    lr := g.lr, momentum := g.momentum, weight_decay := g.weight_decay
    dampening := g.dampening, nesterov := g.nesterov
    eps := g.eps, betas := g.betas }

/-- State of the base `Optimizer`. -/
structure Optimizer where
  param_groups : List ParamGroup
  lr : ℚ
  param_sync_iter : ℕ
  n_step : ℕ
deriving DecidableEq, Repr

/-- The external `jt` engine, as consumed by this module. -/
structure Env where
  mpi : Bool
  reduceMean : ℚ → ℚ
  grad : ℕ → ℚ
  sqrt : ℚ → ℚ

/-- The body of the group-collection loop (lines 32–34):
`assert isinstance(pg, dict)` then append the dict as a group; a raw
parameter fails the assert. -/
def dictToGroup : PEntry → Option ParamGroup
  | .dict g => some g.toParamGroup
  | .param _ => none

/-- `Optimizer.__init__` lines 29–34: `assert len(params) > 0`; if the first
element is not a dict, wrap the whole sequence into a single group
`{'params': params}`; otherwise every element must be a dict. -/
def Optimizer.initGroups : List PEntry → Option (List ParamGroup)
  | [] => none
  | e :: rest =>
    if e.isDict then
      mapMOpt dictToGroup (e :: rest)
    else
      some [{ params := e :: rest }]

/-- `Optimizer.__init__`: build the groups, record `lr` and
`param_sync_iter`, start `n_step` at 0. -/
def Optimizer.init (params : List PEntry) (lr : ℚ)
    (param_sync_iter : ℕ := 10000) : Option Optimizer :=
  (Optimizer.initGroups params).map fun gs =>
    { param_groups := gs, lr := lr, param_sync_iter := param_sync_iter
      n_step := 0 }

/-- Number of non-stop-gradient parameters in an entry list (dict entries
never get that far: they raise first). -/
def countNonStop : List PEntry → ℕ
  | [] => 0
  | .param p :: es => (if p.is_stop_grad then 0 else 1) + countNonStop es
  | .dict _ :: es => countNonStop es

/-- Total over a group list, in group order. -/
def countNonStopGroups (gs : List ParamGroup) : ℕ :=
  (gs.map fun pg => countNonStop pg.params).sum

/-- The collection loop of `pre_step` (lines 50–55) restricted to one group:
the `params_has_grad` entries contributed by this group.  Each entry gets
`p.is_stop_grad()` called on it, so a dict entry raises. -/
def collectHasGrad : List PEntry → Option (List Param)
  | [] => some []
  | e :: es =>
    match e.asParam with
    | none => none
    | some p =>
      match collectHasGrad es with
      | none => none
      | some rest => some (if p.is_stop_grad then rest else p :: rest)

/-- `params_has_grad` across all groups, in group order. -/
def collectAllHasGrad : List ParamGroup → Option (List Param)
  | [] => some []
  | pg :: pgs =>
    match collectHasGrad pg.params with
    | none => none
    | some a =>
      match collectAllHasGrad pgs with
      | none => none
      | some b => some (a ++ b)

/-- `p.assign(p.mpi_all_reduce("mean"))` on one entry of the flat `params`
list.  (When this runs, a previous pass has already ruled out dict
entries.) -/
def syncEntry (f : ℚ → ℚ) : PEntry → PEntry
  | .param p => .param { p with value := f p.value }
  | .dict g => .dict g

/-- The mpi full resync (lines 67–69) applied to one group: every parameter
is replaced by its cross-worker mean. -/
def ParamGroup.syncParams (f : ℚ → ℚ) (pg : ParamGroup) : ParamGroup :=
  { pg with params := pg.params.map (syncEntry f) }

/-- The scatter loop of `pre_step` (lines 76–79) on one group: walk the
params, put `None` placeholders at stop-gradient positions and consume one
gradient from the global list per non-stop-gradient parameter; return the
group's new `grads` list and the unconsumed tail of the global list. -/
def scatterGrads : List PEntry → List ℚ → Option (List (Option ℚ) × List ℚ)
  | [], gs => some ([], gs)
  | e :: es, gs =>
    match e.asParam with
    | none => none
    | some p =>
      if p.is_stop_grad then
        match scatterGrads es gs with
        | none => none
        | some (res, rest) => some (none :: res, rest)
      else
        match gs with
        | [] => none
        | g :: gs' =>
          match scatterGrads es gs' with
          | none => none
          | some (res, rest) => some (some g :: res, rest)

/-- The scatter loop over all groups, threading the global gradient cursor
(`pid`) across groups. -/
def scatterAll : List ParamGroup → List ℚ → Option (List ParamGroup)
  | [], _ => some []
  | pg :: pgs, gs =>
    match scatterGrads pg.params gs with
    | none => none
    | some (res, rest) =>
      match scatterAll pgs rest with
      | none => none
      | some pgs' => some ({ pg with grads := res } :: pgs')

/-- `Optimizer.pre_step` (lines 37–79): reset every group's `grads` to
`None`s, collect `params_has_grad` (raising on non-tensor entries), run the
batched backward call, mean-reduce the gradients and periodically resync the
parameters when under mpi, increment `n_step`, scatter the gradients back
into the groups.  `jt.sync(params)` only forces materialization and has no
numeric effect. -/
def ParamGroup.resetGrads (pg : ParamGroup) : ParamGroup :=
  { pg with grads := List.replicate pg.params.length none }

def Optimizer.pre_step (env : Env) (s : Optimizer) : Option Optimizer :=
  let gs0 := s.param_groups.map ParamGroup.resetGrads
  (collectAllHasGrad gs0).bind fun phg =>
    let grads0 := (List.range phg.length).map env.grad
    let grads := if env.mpi then grads0.map env.reduceMean else grads0
    let gs1 :=
      if env.mpi then
        if s.n_step % s.param_sync_iter = 0 then
          gs0.map (ParamGroup.syncParams env.reduceMean)
        else gs0
      else gs0
    (scatterAll gs1 grads).map fun gs2 =>
      { s with param_groups := gs2, n_step := s.n_step + 1 }

/-- The update loop of the base `Optimizer.step` (lines 85–89) on one group:
`for p, g in zip(params, grads)` (so iteration stops at the shorter list,
leaving the rest of `params` untouched); stop-gradient parameters are
skipped; otherwise `p -= g * lr` (raising if the gradient slot is `None`).
`detach_inplace` has no numeric effect. -/
def baseGroupStep (lr : ℚ) : List PEntry → List (Option ℚ) → Option (List PEntry)
  | [], _ => some []
  | ps, [] => some ps
  | e :: ps, g :: gs =>
    match e.asParam with
    | none => none
    | some p =>
      if p.is_stop_grad then
        match baseGroupStep lr ps gs with
        | none => none
        | some ps' => some (e :: ps')
      else
        match g with
        | none => none
        | some gv =>
          match baseGroupStep lr ps gs with
          | none => none
          | some ps' => some (.param { p with value := p.value - gv * lr } :: ps')

/-- `Optimizer.step` (lines 81–89). -/
def Optimizer.step (env : Env) (s : Optimizer) : Option Optimizer :=
  (s.pre_step env).bind fun t =>
    (mapMOpt (fun pg =>
        (baseGroupStep (pg.lr.getD t.lr) pg.params pg.grads).map fun ps =>
          { pg with params := ps }) t.param_groups).map fun gs =>
      { t with param_groups := gs }

/-- State of the `SGD` optimizer: the base state plus the optimizer-wide
default hyperparameters. -/
structure SGD where
  base : Optimizer
  momentum : ℚ
  weight_decay : ℚ
  dampening : ℚ
  nesterov : Bool
deriving DecidableEq, Repr

/-- `SGD.__init__` (lines 100–111): base construction, then one
zero-initialized velocity per parameter in every group (`p.shape` raises on
a dict entry). -/
def SGD.init (params : List PEntry) (lr : ℚ) (momentum : ℚ := 0)
    (weight_decay : ℚ := 0) (dampening : ℚ := 0) (nesterov : Bool := false) :
    Option SGD :=
  (Optimizer.init params lr).bind fun base =>
    (mapMOpt (fun pg =>
        (mapMOpt PEntry.asParam pg.params).map fun ps =>
          { pg with values := ps.map fun _ => (0 : ℚ) }) base.param_groups).map fun gs =>
      { base := { base with param_groups := gs }
        momentum := momentum, weight_decay := weight_decay
        dampening := dampening, nesterov := nesterov }

/-- The update loop of `SGD.step` (lines 124–132) on one group:
`zip(params, grads, values)` (stopping at the shortest list, the rest
untouched); stop-gradient parameters skipped entirely; otherwise
`dp = p * weight_decay + g`, `v ← momentum * v + dp * (1 - dampening)`
(in place, so the nesterov branch sees the updated velocity), then
`p ← p - (dp + momentum * v) * lr` if nesterov else `p ← p - v * lr`.
Returns the group's new `params` and `values` lists. -/
def sgdGroupStep (lr momentum weight_decay dampening : ℚ) (nesterov : Bool) :
    List PEntry → List (Option ℚ) → List ℚ → Option (List PEntry × List ℚ)
  | [], _, vs => some ([], vs)
  | ps, [], vs => some (ps, vs)
  | ps, _ :: _, [] => some (ps, [])
  | e :: ps, g :: gs, v :: vs =>
    match e.asParam with
    | none => none
    | some p =>
      if p.is_stop_grad then
        match sgdGroupStep lr momentum weight_decay dampening nesterov ps gs vs with
        | none => none
        | some (ps', vs') => some (e :: ps', v :: vs')
      else
        match g with
        | none => none
        | some gv =>
          let dp := p.value * weight_decay + gv
          let v' := momentum * v + dp * (1 - dampening)
          let newv := if nesterov then p.value - (dp + momentum * v') * lr
                      else p.value - v' * lr
          match sgdGroupStep lr momentum weight_decay dampening nesterov ps gs vs with
          | none => none
          | some (ps', vs') =>
            some (.param { p with value := newv } :: ps', v' :: vs')

/-- `SGD.step` (lines 113–132). -/
def SGD.step (env : Env) (o : SGD) : Option SGD :=
  (o.base.pre_step env).bind fun t =>
    (mapMOpt (fun pg =>
        (sgdGroupStep (pg.lr.getD t.lr) (pg.momentum.getD o.momentum)
            (pg.weight_decay.getD o.weight_decay)
            (pg.dampening.getD o.dampening) (pg.nesterov.getD o.nesterov)
            pg.params pg.grads pg.values).map fun r =>
          { pg with params := r.1, values := r.2 }) t.param_groups).map fun gs =>
      { o with base := { t with param_groups := gs } }

/-- State of the `Adam` optimizer: the base state plus `eps` and `betas`. -/
structure Adam where
  base : Optimizer
  eps : ℚ
  betas : ℚ × ℚ
deriving DecidableEq, Repr

/-- `Adam.__init__` (lines 142–155): base construction, then
`assert weight_decay == 0`, then one zero-initialized `v` and `m` per
parameter in every group. -/
def Adam.init (params : List PEntry) (lr : ℚ) (eps : ℚ := 1 / 100000000)
    (betas : ℚ × ℚ := (9 / 10, 999 / 1000)) (weight_decay : ℚ := 0) :
    Option Adam :=
  (Optimizer.init params lr).bind fun base =>
    if weight_decay = 0 then
      (mapMOpt (fun pg =>
          (mapMOpt PEntry.asParam pg.params).map fun ps =>
            { pg with values := ps.map fun _ => (0 : ℚ)
                      m := ps.map fun _ => (0 : ℚ) }) base.param_groups).map fun gs =>
        { base := { base with param_groups := gs }, eps := eps, betas := betas }
    else none

/-- The update loop of `Adam.step` (lines 165–171) on one group:
`zip(params, grads, values, m)` (stopping at the shortest list);
stop-gradient parameters skipped; otherwise `m ← b0*m + (1-b0)*g`,
`v ← b1*v + (1-b1)*g*g` (in place), `step_size = lr*sqrt(1-b1^n)/(1-b0^n)`,
`p ← p - m*step_size/(sqrt(v)+eps)` using the updated `m` and `v`.
Returns the group's new `params`, `values` and `m` lists. -/
def adamGroupStep (sq : ℚ → ℚ) (lr eps b0 b1 : ℚ) (n : ℕ) :
    List PEntry → List (Option ℚ) → List ℚ → List ℚ →
    Option (List PEntry × List ℚ × List ℚ)
  | [], _, vs, ms => some ([], vs, ms)
  | ps, [], vs, ms => some (ps, vs, ms)
  | ps, _ :: _, [], ms => some (ps, [], ms)
  | ps, _ :: _, v :: vs, [] => some (ps, v :: vs, [])
  | e :: ps, g :: gs, v :: vs, mv :: ms =>
    match e.asParam with
    | none => none
    | some p =>
      if p.is_stop_grad then
        match adamGroupStep sq lr eps b0 b1 n ps gs vs ms with
        | none => none
        | some (ps', vs', ms') => some (e :: ps', v :: vs', mv :: ms')
      else
        match g with
        | none => none
        | some gv =>
          let m' := b0 * mv + (1 - b0) * gv
          let v' := b1 * v + (1 - b1) * gv * gv
          let step_size := lr * sq (1 - b1 ^ n) / (1 - b0 ^ n)
          let newp := p.value - m' * step_size / (sq v' + eps)
          match adamGroupStep sq lr eps b0 b1 n ps gs vs ms with
          | none => none
          | some (ps', vs', ms') =>
            some (.param { p with value := newp } :: ps', v' :: vs', m' :: ms')

/-- `Adam.step` (lines 157–171); `n = float(self.n_step)` is read after
`pre_step` has incremented the counter. -/
def Adam.step (env : Env) (o : Adam) : Option Adam :=
  (o.base.pre_step env).bind fun t =>
    (mapMOpt (fun pg =>
        (adamGroupStep env.sqrt (pg.lr.getD t.lr) (pg.eps.getD o.eps)
            (pg.betas.getD o.betas).1 (pg.betas.getD o.betas).2 t.n_step
            pg.params pg.grads pg.values pg.m).map fun r =>
          { pg with params := r.1, values := r.2.1, m := r.2.2 }) t.param_groups).map fun gs =>
      { o with base := { t with param_groups := gs } }

/-- The value a non-stop-gradient parameter's `grads` slot receives for the
`k`-th position of the batched backward call: the raw engine gradient, mean
all-reduced when under mpi. -/
def Env.effGrad (env : Env) (k : ℕ) : ℚ :=
  if env.mpi then env.reduceMean (env.grad k) else env.grad k

/-- The position of parameter `i` of group `gi` in the filtered
(`params_has_grad`) ordering of the batched backward call: all
non-stop-gradient parameters of earlier groups, then the non-stop-gradient
parameters before index `i` in group `gi`. -/
def flatGradIdx (gs : List ParamGroup) (gi i : ℕ) : ℕ :=
  countNonStopGroups (gs.take gi) +
    countNonStop (((gs[gi]?.map ParamGroup.params).getD []).take i)

/-! ## Concrete states used to exercise the definitions -/

/-- A trainable parameter with value 1. -/
def exParam : Param := ⟨1, false⟩

/-- A stop-gradient parameter with value 5. -/
def exStop : Param := ⟨5, true⟩

/-- Non-distributed engine whose batched backward call returns 2 everywhere. -/
def exEnv : Env := ⟨false, id, fun _ => 2, id⟩

/-- Non-distributed engine whose batched backward call returns 0 everywhere. -/
def exEnvZero : Env := ⟨false, id, fun _ => 0, id⟩

/-- Distributed engine: the cross-worker mean adds 1, gradient `k` is `k + 2`. -/
def exEnvMpi : Env := ⟨true, fun x => x + 1, fun k => (k : ℚ) + 2, id⟩

/-- One group: a trainable and a stop-gradient parameter, with velocity and
first-moment state. -/
def exGroup : ParamGroup :=
  { params := [.param exParam, .param exStop], values := [3, 4], m := [7, 8] }

def exOpt : Optimizer := ⟨[exGroup], 1, 10000, 0⟩

/-- Base state whose next `pre_step` lands exactly on the resync condition
(`n_step = param_sync_iter = 3`). -/
def exOptSync : Optimizer := ⟨[exGroup], 1, 3, 3⟩

/-- SGD with momentum 1/2, weight decay 1, dampening 0, nesterov. -/
def exSGD : SGD := ⟨exOpt, 1/2, 1, 0, true⟩

/-- SGD with momentum 1/2 and all other hyperparameters zero. -/
def exSGDZero : SGD := ⟨exOpt, 1/2, 0, 0, false⟩

/-- SGD whose effective hyperparameters are all zero. -/
def exSGDPlain : SGD := ⟨exOpt, 0, 0, 0, false⟩

/-- Adam with lr 1, eps 1/100 and betas (1/2, 1/3). -/
def exAdam : Adam := ⟨exOpt, 1/100, (1/2, 1/3)⟩

/-- A one-parameter group dictionary. -/
def exSpec : GroupSpec := { params := [exParam] }

/-! ## Helper lemmas -/

theorem mapMOpt_length {α β} {f : α → Option β} :
    ∀ {l : List α} {l' : List β}, mapMOpt f l = some l' → l'.length = l.length := by
  intro l
  induction l with
  | nil => intro l' h; simp only [mapMOpt, Option.some.injEq] at h; subst h; rfl
  | cons a l ih =>
    intro l' h
    simp only [mapMOpt] at h
    cases hfa : f a with
    | none => rw [hfa] at h; exact absurd h (by simp)
    | some b =>
      rw [hfa] at h
      cases hrec : mapMOpt f l with
      | none => rw [hrec] at h; exact absurd h (by simp)
      | some tl =>
        rw [hrec] at h
        simp only [Option.some.injEq] at h
        subst h
        simp [ih hrec]

theorem mapMOpt_getElem? {α β} {f : α → Option β} :
    ∀ {l : List α} {l' : List β}, mapMOpt f l = some l' →
      ∀ {i : ℕ} {x : α}, l[i]? = some x → ∃ y, l'[i]? = some y ∧ f x = some y := by
  intro l
  induction l with
  | nil => intro l' _ i x hx; simp at hx
  | cons a l ih =>
    intro l' h i x hx
    simp only [mapMOpt] at h
    cases hfa : f a with
    | none => rw [hfa] at h; exact absurd h (by simp)
    | some b =>
      rw [hfa] at h
      cases hrec : mapMOpt f l with
      | none => rw [hrec] at h; exact absurd h (by simp)
      | some tl =>
        rw [hrec] at h
        simp only [Option.some.injEq] at h
        subst h
        cases i with
        | zero =>
          simp only [List.getElem?_cons_zero, Option.some.injEq] at hx
          subst hx
          exact ⟨b, by simp, hfa⟩
        | succ n =>
          simp only [List.getElem?_cons_succ] at hx ⊢
          exact ih hrec hx

theorem countNonStop_take_le : ∀ (ps : List PEntry) (i : ℕ),
    countNonStop (ps.take i) ≤ countNonStop ps := by
  intro ps
  induction ps with
  | nil => intro i; simp
  | cons e es ih =>
    intro i
    cases i with
    | zero => simp [countNonStop]
    | succ n =>
      cases e with
      | param p => simpa [countNonStop] using ih n
      | dict g => simpa [countNonStop] using ih n

theorem countNonStop_take_lt : ∀ {ps : List PEntry} {i : ℕ} {p : Param},
    ps[i]? = some (.param p) → p.is_stop_grad = false →
    countNonStop (ps.take i) < countNonStop ps := by
  intro ps
  induction ps with
  | nil => intro i p h _; simp at h
  | cons e es ih =>
    intro i p h hs
    cases i with
    | zero =>
      simp only [List.getElem?_cons_zero, Option.some.injEq] at h
      subst h
      simp [countNonStop, hs]
    | succ n =>
      simp only [List.getElem?_cons_succ] at h
      have := ih h hs
      cases e with
      | param q => simp [countNonStop]; omega
      | dict g => simpa [countNonStop] using this

theorem countNonStopGroups_take_add_le : ∀ {gs : List ParamGroup} {k : ℕ} {pg : ParamGroup},
    gs[k]? = some pg →
    countNonStopGroups (gs.take k) + countNonStop pg.params ≤ countNonStopGroups gs := by
  intro gs
  induction gs with
  | nil => intro k pg h; simp at h
  | cons g gs ih =>
    intro k pg h
    cases k with
    | zero =>
      simp only [List.getElem?_cons_zero, Option.some.injEq] at h
      subst h
      simp [countNonStopGroups]
    | succ n =>
      simp only [List.getElem?_cons_succ] at h
      have := ih h
      simp only [countNonStopGroups, List.take_succ_cons, List.map_cons, List.sum_cons] at *
      omega

theorem collectHasGrad_length : ∀ {ps : List PEntry} {l : List Param},
    collectHasGrad ps = some l → l.length = countNonStop ps := by
  intro ps
  induction ps with
  | nil =>
    intro l h
    simp only [collectHasGrad, Option.some.injEq] at h
    subst h; rfl
  | cons e es ih =>
    intro l h
    simp only [collectHasGrad] at h
    cases e with
    | dict g => simp [PEntry.asParam] at h
    | param p =>
      simp only [PEntry.asParam] at h
      cases hrec : collectHasGrad es with
      | none => rw [hrec] at h; exact absurd h (by simp)
      | some rest =>
        rw [hrec] at h
        simp only [Option.some.injEq] at h
        subst h
        cases hs : p.is_stop_grad with
        | true => simp [hs, countNonStop, ih hrec]
        | false => simp [hs, countNonStop, ih hrec]; omega

theorem collectAllHasGrad_length : ∀ {gs : List ParamGroup} {l : List Param},
    collectAllHasGrad gs = some l → l.length = countNonStopGroups gs := by
  intro gs
  induction gs with
  | nil =>
    intro l h
    simp only [collectAllHasGrad, Option.some.injEq] at h
    subst h; rfl
  | cons pg pgs ih =>
    intro l h
    simp only [collectAllHasGrad] at h
    cases h1 : collectHasGrad pg.params with
    | none => rw [h1] at h; exact absurd h (by simp)
    | some a =>
      rw [h1] at h
      cases h2 : collectAllHasGrad pgs with
      | none => rw [h2] at h; exact absurd h (by simp)
      | some b =>
        rw [h2] at h
        simp only [Option.some.injEq] at h
        subst h
        simp [countNonStopGroups, collectHasGrad_length h1, ih h2, List.map_cons]

theorem scatterGrads_spec :
    ∀ {ps : List PEntry} {gs : List ℚ} {res : List (Option ℚ)} {rest : List ℚ},
    scatterGrads ps gs = some (res, rest) →
    res.length = ps.length ∧ rest = gs.drop (countNonStop ps) ∧
    ∀ i p, ps[i]? = some (.param p) →
      res[i]? = some (if p.is_stop_grad then none
                      else gs[countNonStop (ps.take i)]?) := by
  intro ps
  induction ps with
  | nil =>
    intro gs res rest h
    simp only [scatterGrads, Option.some.injEq, Prod.mk.injEq] at h
    obtain ⟨h1, h2⟩ := h
    subst h1; subst h2
    refine ⟨rfl, by simp [countNonStop], ?_⟩
    intro i p hp
    simp at hp
  | cons e es ih =>
    intro gs res rest h
    cases e with
    | dict g => simp [scatterGrads, PEntry.asParam] at h
    | param p =>
      simp only [scatterGrads, PEntry.asParam] at h
      cases hs : p.is_stop_grad with
      | true =>
        rw [hs] at h
        simp only [if_true] at h
        cases hrec : scatterGrads es gs with
        | none => rw [hrec] at h; exact absurd h (by simp)
        | some pr =>
          obtain ⟨res1, rest1⟩ := pr
          rw [hrec] at h
          simp only [Option.some.injEq, Prod.mk.injEq] at h
          obtain ⟨h1, h2⟩ := h
          subst h1; subst h2
          obtain ⟨ihl, ihr, ihs⟩ := ih hrec
          refine ⟨by simp [ihl], by simpa [countNonStop, hs] using ihr, ?_⟩
          intro i q hq
          cases i with
          | zero =>
            simp only [List.getElem?_cons_zero, Option.some.injEq] at hq
            cases hq
            simp [hs]
          | succ n =>
            simp only [List.getElem?_cons_succ] at hq ⊢
            simpa [countNonStop, hs] using ihs n q hq
      | false =>
        rw [hs] at h
        simp only [if_false, Bool.false_eq_true] at h
        cases gs with
        | nil => exact absurd h (by simp)
        | cons g gs' =>
          have h0 : (match scatterGrads es gs' with
                | none => none
                | some (res, rest) => some (some g :: res, rest)) = some (res, rest) := h
          cases hrec : scatterGrads es gs' with
          | none => rw [hrec] at h0; exact absurd h0 (by simp)
          | some pr =>
            obtain ⟨res1, rest1⟩ := pr
            rw [hrec] at h0
            simp only [Option.some.injEq, Prod.mk.injEq] at h0
            obtain ⟨h1, h2⟩ := h0
            subst h1; subst h2
            obtain ⟨ihl, ihr, ihs⟩ := ih hrec
            refine ⟨by simp [ihl], ?_, ?_⟩
            · have : countNonStop (.param p :: es) = countNonStop es + 1 := by
                simp [countNonStop, hs]; omega
              rw [this, List.drop_succ_cons]
              exact ihr
            · intro i q hq
              cases i with
              | zero =>
                simp only [List.getElem?_cons_zero, Option.some.injEq] at hq
                cases hq
                simp [hs, countNonStop]
              | succ n =>
                simp only [List.getElem?_cons_succ] at hq ⊢
                have hcnt : countNonStop ((PEntry.param p :: es).take (n + 1)) =
                    countNonStop (es.take n) + 1 := by
                  simp [countNonStop, hs]; omega
                rw [hcnt, List.getElem?_cons_succ]
                exact ihs n q hq

theorem scatterAll_spec :
    ∀ {gs : List ParamGroup} {grads : List ℚ} {gs' : List ParamGroup},
    scatterAll gs grads = some gs' →
    gs'.length = gs.length ∧
    ∀ k pg, gs[k]? = some pg →
      ∃ res rest, gs'[k]? = some { pg with grads := res } ∧
        scatterGrads pg.params (grads.drop (countNonStopGroups (gs.take k))) =
          some (res, rest) := by
  intro gs
  induction gs with
  | nil =>
    intro grads gs' h
    simp only [scatterAll, Option.some.injEq] at h
    subst h
    exact ⟨rfl, by intro k pg h; simp at h⟩
  | cons pg pgs ih =>
    intro grads gs' h
    simp only [scatterAll] at h
    cases hsc : scatterGrads pg.params grads with
    | none => rw [hsc] at h; exact absurd h (by simp)
    | some pr =>
      obtain ⟨res, rest⟩ := pr
      rw [hsc] at h
      have h0 : (match scatterAll pgs rest with
            | none => none
            | some pgs' => some ({ pg with grads := res } :: pgs')) = some gs' := h
      cases hrec : scatterAll pgs rest with
      | none => rw [hrec] at h0; exact absurd h0 (by simp)
      | some pgs' =>
        rw [hrec] at h0
        simp only [Option.some.injEq] at h0
        subst h0
        obtain ⟨ihl, ihs⟩ := ih hrec
        refine ⟨by simp [ihl], ?_⟩
        intro k q hq
        cases k with
        | zero =>
          simp only [List.getElem?_cons_zero, Option.some.injEq] at hq
          subst hq
          exact ⟨res, rest, by simp, by simpa [countNonStopGroups] using hsc⟩
        | succ n =>
          simp only [List.getElem?_cons_succ] at hq ⊢
          obtain ⟨res1, rest1, h1, h2⟩ := ihs n q hq
          refine ⟨res1, rest1, h1, ?_⟩
          have hrest : rest = grads.drop (countNonStop pg.params) :=
            (scatterGrads_spec hsc).2.1
          have hcnt : countNonStopGroups ((pg :: pgs).take (n + 1)) =
              countNonStop pg.params + countNonStopGroups (pgs.take n) := by
            simp [countNonStopGroups]
          rw [hcnt, ← List.drop_drop]
          rw [hrest] at h2
          exact h2

theorem countNonStop_map_syncEntry (f : ℚ → ℚ) :
    ∀ ps : List PEntry, countNonStop (ps.map (syncEntry f)) = countNonStop ps := by
  intro ps
  induction ps with
  | nil => rfl
  | cons e es ih =>
    cases e with
    | param p => simp [syncEntry, countNonStop, ih]
    | dict g => simp [syncEntry, countNonStop, ih]

theorem countNonStop_take_map_syncEntry (f : ℚ → ℚ) :
    ∀ (ps : List PEntry) (i : ℕ),
    countNonStop ((ps.map (syncEntry f)).take i) = countNonStop (ps.take i) := by
  intro ps i
  rw [← List.map_take]
  exact countNonStop_map_syncEntry f (ps.take i)

theorem countNonStopGroups_map {F : ParamGroup → ParamGroup}
    (hF : ∀ pg, countNonStop (F pg).params = countNonStop pg.params) :
    ∀ gs : List ParamGroup, countNonStopGroups (gs.map F) = countNonStopGroups gs := by
  intro gs
  induction gs with
  | nil => rfl
  | cons pg pgs ih => simp [countNonStopGroups, hF] at *; omega

theorem countNonStopGroups_take_map {F : ParamGroup → ParamGroup}
    (hF : ∀ pg, countNonStop (F pg).params = countNonStop pg.params) :
    ∀ (gs : List ParamGroup) (k : ℕ),
    countNonStopGroups ((gs.map F).take k) = countNonStopGroups (gs.take k) := by
  intro gs k
  rw [← List.map_take]
  exact countNonStopGroups_map hF (gs.take k)

theorem scatter_stage_spec {F : ParamGroup → ParamGroup} {env : Env}
    {base : List ParamGroup} {grads : List ℚ} {N : ℕ} {gs2 : List ParamGroup}
    (hlen : ∀ pg, (F pg).params.length = pg.params.length)
    (hcount : ∀ pg i, countNonStop ((F pg).params.take i) =
      countNonStop (pg.params.take i))
    (hcountAll : ∀ pg, countNonStop (F pg).params = countNonStop pg.params)
    (hslotp : ∀ pg (i : ℕ) p, pg.params[i]? = some (.param p) →
      ∃ q, (F pg).params[i]? = some (.param q) ∧ q.is_stop_grad = p.is_stop_grad)
    (hg : ∀ k, k < N → grads[k]? = some (env.effGrad k))
    (hN : countNonStopGroups base ≤ N)
    (hsc : scatterAll (base.map F) grads = some gs2) :
    gs2.length = base.length ∧
    ∀ gi pg, base[gi]? = some pg →
      ∃ pg', gs2[gi]? = some pg' ∧
        pg'.params = (F pg).params ∧
        pg'.values = (F pg).values ∧ pg'.m = (F pg).m ∧ pg'.lr = (F pg).lr ∧
        pg'.momentum = (F pg).momentum ∧ pg'.weight_decay = (F pg).weight_decay ∧
        pg'.dampening = (F pg).dampening ∧ pg'.nesterov = (F pg).nesterov ∧
        pg'.eps = (F pg).eps ∧ pg'.betas = (F pg).betas ∧
        pg'.grads.length = pg.params.length ∧
        ∀ i p, pg.params[i]? = some (.param p) →
          pg'.grads[i]? = some (if p.is_stop_grad then none
            else some (env.effGrad (flatGradIdx base gi i))) := by
  obtain ⟨hle, hslots⟩ := scatterAll_spec hsc
  constructor
  · simpa using hle
  intro gi pg hgi
  have hFgi : (base.map F)[gi]? = some (F pg) := by
    rw [List.getElem?_map, hgi]; rfl
  obtain ⟨res, rest, hslot, hsg⟩ := hslots gi (F pg) hFgi
  obtain ⟨hreslen, _, hresslot⟩ := scatterGrads_spec hsg
  refine ⟨{ F pg with grads := res }, hslot, rfl, rfl, rfl, rfl, rfl, rfl, rfl, rfl,
    rfl, rfl, ?_, ?_⟩
  · simpa [hlen pg] using hreslen
  intro i p hp
  obtain ⟨q, hq, hqs⟩ := hslotp pg i p hp
  have hres := hresslot i q hq
  have hKeq : countNonStopGroups ((base.map F).take gi) =
      countNonStopGroups (base.take gi) :=
    countNonStopGroups_take_map (fun pg => hcountAll pg) base gi
  rw [hKeq] at hsg hres
  have hcnt : countNonStop ((F pg).params.take i) = countNonStop (pg.params.take i) :=
    hcount pg i
  rw [hcnt, hqs] at hres
  show ({ F pg with grads := res } : ParamGroup).grads[i]? = _
  rw [show ({ F pg with grads := res } : ParamGroup).grads = res from rfl, hres]
  cases hs : p.is_stop_grad with
  | true => simp
  | false =>
    simp only [Bool.false_eq_true, if_false]
    have hidx : countNonStopGroups (base.take gi) + countNonStop (pg.params.take i) =
        flatGradIdx base gi i := by
      simp [flatGradIdx, hgi]
    have hlt : countNonStopGroups (base.take gi) + countNonStop (pg.params.take i) < N := by
      have h1 : countNonStop (pg.params.take i) < countNonStop pg.params :=
        countNonStop_take_lt hp hs
      have h2 : countNonStopGroups (base.take gi) + countNonStop pg.params ≤
          countNonStopGroups base := countNonStopGroups_take_add_le hgi
      omega
    rw [List.getElem?_drop, hidx] at *
    rw [hg _ (hidx ▸ hlt)]

theorem pre_step_spec {env : Env} {s t : Optimizer} (h : s.pre_step env = some t) :
    t.lr = s.lr ∧ t.param_sync_iter = s.param_sync_iter ∧ t.n_step = s.n_step + 1 ∧
    t.param_groups.length = s.param_groups.length ∧
    ∀ gi pg, s.param_groups[gi]? = some pg →
      ∃ pg', t.param_groups[gi]? = some pg' ∧
        pg'.params = (if env.mpi = true ∧ s.n_step % s.param_sync_iter = 0
                      then pg.params.map (syncEntry env.reduceMean) else pg.params) ∧
        pg'.values = pg.values ∧ pg'.m = pg.m ∧ pg'.lr = pg.lr ∧
        pg'.momentum = pg.momentum ∧ pg'.weight_decay = pg.weight_decay ∧
        pg'.dampening = pg.dampening ∧ pg'.nesterov = pg.nesterov ∧
        pg'.eps = pg.eps ∧ pg'.betas = pg.betas ∧
        pg'.grads.length = pg.params.length ∧
        ∀ i p, pg.params[i]? = some (.param p) →
          pg'.grads[i]? = some (if p.is_stop_grad then none
            else some (env.effGrad (flatGradIdx s.param_groups gi i))) := by
  simp only [Optimizer.pre_step] at h
  rw [Option.bind_eq_some] at h
  obtain ⟨phg, hc, h2⟩ := h
  rw [Option.map_eq_some'] at h2
  obtain ⟨gs2, hsc, ht⟩ := h2
  subst ht
  have hNlen : phg.length = countNonStopGroups s.param_groups := by
    rw [collectAllHasGrad_length hc]
    exact countNonStopGroups_map (F := ParamGroup.resetGrads) (fun pg => rfl)
      s.param_groups
  have hN : countNonStopGroups s.param_groups ≤ phg.length := le_of_eq hNlen.symm
  cases hm : env.mpi with
  | false =>
    rw [hm] at hsc
    simp only [Bool.false_eq_true, if_false] at hsc
    have hg : ∀ k, k < phg.length →
        ((List.range phg.length).map env.grad)[k]? = some (env.effGrad k) := by
      intro k hk
      simp [Env.effGrad, hm, List.getElem?_range hk]
    have hmain := scatter_stage_spec (F := ParamGroup.resetGrads)
      (fun pg => rfl) (fun pg i => rfl) (fun pg => rfl)
      (fun pg i p hp => ⟨p, hp, rfl⟩) hg hN hsc
    refine ⟨rfl, rfl, rfl, hmain.1, ?_⟩
    intro gi pg hgi
    obtain ⟨pg', h1, h2, h3, h4, h5, h6, h7, h8, h9, h10, h11, h12, h13⟩ :=
      hmain.2 gi pg hgi
    refine ⟨pg', h1, ?_, h3, h4, h5, h6, h7, h8, h9, h10, h11, h12, h13⟩
    rw [h2, if_neg]
    · rfl
    · rintro ⟨hmm, _⟩; exact absurd hmm (by simp)
  | true =>
    rw [hm] at hsc
    simp only [if_true] at hsc
    have hg : ∀ k, k < phg.length →
        (((List.range phg.length).map env.grad).map env.reduceMean)[k]? =
          some (env.effGrad k) := by
      intro k hk
      simp [Env.effGrad, hm, List.getElem?_range hk]
    cases hn : decide (s.n_step % s.param_sync_iter = 0) with
    | false =>
      have hn' : ¬ s.n_step % s.param_sync_iter = 0 := of_decide_eq_false hn
      rw [if_neg hn'] at hsc
      have hmain := scatter_stage_spec (F := ParamGroup.resetGrads)
        (fun pg => rfl) (fun pg i => rfl) (fun pg => rfl)
        (fun pg i p hp => ⟨p, hp, rfl⟩) hg hN hsc
      refine ⟨rfl, rfl, rfl, hmain.1, ?_⟩
      intro gi pg hgi
      obtain ⟨pg', h1, h2, h3, h4, h5, h6, h7, h8, h9, h10, h11, h12, h13⟩ :=
        hmain.2 gi pg hgi
      refine ⟨pg', h1, ?_, h3, h4, h5, h6, h7, h8, h9, h10, h11, h12, h13⟩
      rw [h2, if_neg]
      · rfl
      · rintro ⟨_, hnn⟩; exact hn' hnn
    | true =>
      have hn' : s.n_step % s.param_sync_iter = 0 := of_decide_eq_true hn
      rw [if_pos hn', List.map_map] at hsc
      have hmain := scatter_stage_spec
        (F := ParamGroup.syncParams env.reduceMean ∘ ParamGroup.resetGrads)
        (fun pg => by
          show (pg.params.map (syncEntry env.reduceMean)).length = pg.params.length
          simp)
        (fun pg i => countNonStop_take_map_syncEntry env.reduceMean pg.params i)
        (fun pg => countNonStop_map_syncEntry env.reduceMean pg.params)
        (fun pg i p hp => ⟨{ p with value := env.reduceMean p.value }, by
          show (pg.params.map (syncEntry env.reduceMean))[i]? = _
          rw [List.getElem?_map, hp]; rfl, rfl⟩) hg hN hsc
      refine ⟨rfl, rfl, rfl, hmain.1, ?_⟩
      intro gi pg hgi
      obtain ⟨pg', h1, h2, h3, h4, h5, h6, h7, h8, h9, h10, h11, h12, h13⟩ :=
        hmain.2 gi pg hgi
      refine ⟨pg', h1, ?_, h3, h4, h5, h6, h7, h8, h9, h10, h11, h12, h13⟩
      rw [h2, if_pos ⟨rfl, hn'⟩]
      rfl

theorem baseGroupStep_spec {lr : ℚ} :
    ∀ {ps : List PEntry} {gs : List (Option ℚ)} {ps' : List PEntry},
    baseGroupStep lr ps gs = some ps' →
    ∀ (i : ℕ) (p : Param) (g : Option ℚ), ps[i]? = some (.param p) → gs[i]? = some g →
      (p.is_stop_grad = true → ps'[i]? = some (.param p)) ∧
      (p.is_stop_grad = false → ∃ gv, g = some gv ∧
        ps'[i]? = some (.param { p with value := p.value - gv * lr })) := by
  intro ps
  induction ps with
  | nil => intro gs ps' h i p g hp hg; simp at hp
  | cons e es ih =>
    intro gs ps' h i p g hp hg
    cases gs with
    | nil => simp at hg
    | cons g0 gs' =>
      cases e with
      | dict d => simp [baseGroupStep, PEntry.asParam] at h
      | param q =>
        simp only [baseGroupStep, PEntry.asParam] at h
        cases hs : q.is_stop_grad with
        | true =>
          rw [hs] at h
          simp only [if_true] at h
          cases hrec : baseGroupStep lr es gs' with
          | none => rw [hrec] at h; exact absurd h (by simp)
          | some ps1 =>
            rw [hrec] at h
            simp only [Option.some.injEq] at h
            subst h
            cases i with
            | zero =>
              simp only [List.getElem?_cons_zero, Option.some.injEq] at hp
              cases hp
              refine ⟨fun _ => by simp, fun hfalse => ?_⟩
              rw [hs] at hfalse; exact absurd hfalse (by simp)
            | succ n =>
              simp only [List.getElem?_cons_succ] at hp hg ⊢
              exact ih hrec n p g hp hg
        | false =>
          rw [hs] at h
          simp only [Bool.false_eq_true, if_false] at h
          cases g0 with
          | none => exact absurd h (by simp)
          | some gv0 =>
            have h0 : (match baseGroupStep lr es gs' with
                  | none => none
                  | some ps' =>
                    some (.param ⟨q.value - gv0 * lr, false⟩ :: ps')) =
                some ps' := h
            cases hrec : baseGroupStep lr es gs' with
            | none => rw [hrec] at h0; exact absurd h0 (by simp)
            | some ps1 =>
              rw [hrec] at h0
              simp only [Option.some.injEq] at h0
              subst h0
              cases i with
              | zero =>
                simp only [List.getElem?_cons_zero, Option.some.injEq] at hp hg
                cases hp
                cases hg
                refine ⟨fun htrue => ?_, fun _ => ⟨gv0, rfl, by simp [hs]⟩⟩
                rw [hs] at htrue; exact absurd htrue (by simp)
              | succ n =>
                simp only [List.getElem?_cons_succ] at hp hg ⊢
                exact ih hrec n p g hp hg

theorem sgdGroupStep_spec {lr momentum weight_decay dampening : ℚ} {nesterov : Bool} :
    ∀ {ps : List PEntry} {gs : List (Option ℚ)} {vs : List ℚ}
      {ps' : List PEntry} {vs' : List ℚ},
    sgdGroupStep lr momentum weight_decay dampening nesterov ps gs vs =
      some (ps', vs') →
    ∀ (i : ℕ) (p : Param) (g : Option ℚ) (v : ℚ),
      ps[i]? = some (.param p) → gs[i]? = some g → vs[i]? = some v →
      (p.is_stop_grad = true →
        ps'[i]? = some (.param p) ∧ vs'[i]? = some v) ∧
      (p.is_stop_grad = false → ∃ gv, g = some gv ∧
        vs'[i]? = some (momentum * v +
          (p.value * weight_decay + gv) * (1 - dampening)) ∧
        ps'[i]? = some (.param { p with value :=
          if nesterov
          then p.value - ((p.value * weight_decay + gv) + momentum *
            (momentum * v + (p.value * weight_decay + gv) * (1 - dampening))) * lr
          else p.value - (momentum * v +
            (p.value * weight_decay + gv) * (1 - dampening)) * lr })) := by
  intro ps
  induction ps with
  | nil => intro gs vs ps' vs' h i p g v hp hg hv; simp at hp
  | cons e es ih =>
    intro gs vs ps' vs' h i p g v hp hg hv
    cases gs with
    | nil => simp at hg
    | cons g0 gs' =>
      cases vs with
      | nil => simp at hv
      | cons v0 vs0 =>
        cases e with
        | dict d => simp [sgdGroupStep, PEntry.asParam] at h
        | param q =>
          simp only [sgdGroupStep, PEntry.asParam] at h
          cases hs : q.is_stop_grad with
          | true =>
            rw [hs] at h
            simp only [if_true] at h
            cases hrec : sgdGroupStep lr momentum weight_decay dampening nesterov
                es gs' vs0 with
            | none => rw [hrec] at h; exact absurd h (by simp)
            | some pr =>
              obtain ⟨ps1, vs1⟩ := pr
              rw [hrec] at h
              simp only [Option.some.injEq, Prod.mk.injEq] at h
              obtain ⟨h1, h2⟩ := h
              subst h1; subst h2
              cases i with
              | zero =>
                simp only [List.getElem?_cons_zero, Option.some.injEq] at hp hv
                cases hp
                cases hv
                refine ⟨fun _ => ⟨by simp, by simp⟩, fun hfalse => ?_⟩
                rw [hs] at hfalse; exact absurd hfalse (by simp)
              | succ n =>
                simp only [List.getElem?_cons_succ] at hp hg hv ⊢
                exact ih hrec n p g v hp hg hv
          | false =>
            rw [hs] at h
            simp only [Bool.false_eq_true, if_false] at h
            cases g0 with
            | none => exact absurd h (by simp)
            | some gv0 =>
              have h0 : (match sgdGroupStep lr momentum weight_decay dampening
                    nesterov es gs' vs0 with
                  | none => none
                  | some (ps1, vs1) =>
                    some (PEntry.param ⟨if nesterov
                        then q.value - ((q.value * weight_decay + gv0) + momentum *
                          (momentum * v0 +
                            (q.value * weight_decay + gv0) * (1 - dampening))) * lr
                        else q.value - (momentum * v0 +
                          (q.value * weight_decay + gv0) * (1 - dampening)) * lr,
                        false⟩ :: ps1,
                      (momentum * v0 +
                        (q.value * weight_decay + gv0) * (1 - dampening)) :: vs1)) =
                  some (ps', vs') := h
              cases hrec : sgdGroupStep lr momentum weight_decay dampening nesterov
                  es gs' vs0 with
              | none => rw [hrec] at h0; exact absurd h0 (by simp)
              | some pr =>
                obtain ⟨ps1, vs1⟩ := pr
                rw [hrec] at h0
                simp only [Option.some.injEq, Prod.mk.injEq] at h0
                obtain ⟨h1, h2⟩ := h0
                subst h1; subst h2
                cases i with
                | zero =>
                  simp only [List.getElem?_cons_zero, Option.some.injEq] at hp hg hv
                  cases hp
                  cases hg
                  cases hv
                  refine ⟨fun htrue => ?_, fun _ => ⟨gv0, rfl, by simp, by simp [hs]⟩⟩
                  rw [hs] at htrue; exact absurd htrue (by simp)
                | succ n =>
                  simp only [List.getElem?_cons_succ] at hp hg hv ⊢
                  exact ih hrec n p g v hp hg hv

theorem adamGroupStep_spec {sq : ℚ → ℚ} {lr eps b0 b1 : ℚ} {n : ℕ} :
    ∀ {ps : List PEntry} {gs : List (Option ℚ)} {vs ms : List ℚ}
      {ps' : List PEntry} {vs' ms' : List ℚ},
    adamGroupStep sq lr eps b0 b1 n ps gs vs ms = some (ps', vs', ms') →
    ∀ (i : ℕ) (p : Param) (g : Option ℚ) (v mv : ℚ),
      ps[i]? = some (.param p) → gs[i]? = some g → vs[i]? = some v →
      ms[i]? = some mv →
      (p.is_stop_grad = true →
        ps'[i]? = some (.param p) ∧ vs'[i]? = some v ∧ ms'[i]? = some mv) ∧
      (p.is_stop_grad = false → ∃ gv, g = some gv ∧
        ms'[i]? = some (b0 * mv + (1 - b0) * gv) ∧
        vs'[i]? = some (b1 * v + (1 - b1) * gv * gv) ∧
        ps'[i]? = some (.param { p with value :=
          p.value - (b0 * mv + (1 - b0) * gv) *
            (lr * sq (1 - b1 ^ n) / (1 - b0 ^ n)) /
            (sq (b1 * v + (1 - b1) * gv * gv) + eps) })) := by
  intro ps
  induction ps with
  | nil => intro gs vs ms ps' vs' ms' h i p g v mv hp hg hv hm; simp at hp
  | cons e es ih =>
    intro gs vs ms ps' vs' ms' h i p g v mv hp hg hv hm
    cases gs with
    | nil => simp at hg
    | cons g0 gs' =>
      cases vs with
      | nil => simp at hv
      | cons v0 vs0 =>
        cases ms with
        | nil => simp at hm
        | cons m0 ms0 =>
          cases e with
          | dict d => simp [adamGroupStep, PEntry.asParam] at h
          | param q =>
            simp only [adamGroupStep, PEntry.asParam] at h
            cases hs : q.is_stop_grad with
            | true =>
              rw [hs] at h
              simp only [if_true] at h
              cases hrec : adamGroupStep sq lr eps b0 b1 n es gs' vs0 ms0 with
              | none => rw [hrec] at h; exact absurd h (by simp)
              | some pr =>
                obtain ⟨ps1, vs1, ms1⟩ := pr
                rw [hrec] at h
                simp only [Option.some.injEq, Prod.mk.injEq] at h
                obtain ⟨h1, h2, h3⟩ := h
                subst h1; subst h2; subst h3
                cases i with
                | zero =>
                  simp only [List.getElem?_cons_zero, Option.some.injEq] at hp hv hm
                  cases hp
                  cases hv
                  cases hm
                  refine ⟨fun _ => ⟨by simp, by simp, by simp⟩, fun hfalse => ?_⟩
                  rw [hs] at hfalse; exact absurd hfalse (by simp)
                | succ k =>
                  simp only [List.getElem?_cons_succ] at hp hg hv hm ⊢
                  exact ih hrec k p g v mv hp hg hv hm
            | false =>
              rw [hs] at h
              simp only [Bool.false_eq_true, if_false] at h
              cases g0 with
              | none => exact absurd h (by simp)
              | some gv0 =>
                have h0 : (match adamGroupStep sq lr eps b0 b1 n es gs' vs0 ms0 with
                    | none => none
                    | some (ps1, vs1, ms1) =>
                      some (PEntry.param ⟨q.value - (b0 * m0 + (1 - b0) * gv0) *
                            (lr * sq (1 - b1 ^ n) / (1 - b0 ^ n)) /
                            (sq (b1 * v0 + (1 - b1) * gv0 * gv0) + eps), false⟩ :: ps1,
                        (b1 * v0 + (1 - b1) * gv0 * gv0) :: vs1,
                        (b0 * m0 + (1 - b0) * gv0) :: ms1)) =
                    some (ps', vs', ms') := h
                cases hrec : adamGroupStep sq lr eps b0 b1 n es gs' vs0 ms0 with
                | none => rw [hrec] at h0; exact absurd h0 (by simp)
                | some pr =>
                  obtain ⟨ps1, vs1, ms1⟩ := pr
                  rw [hrec] at h0
                  simp only [Option.some.injEq, Prod.mk.injEq] at h0
                  obtain ⟨h1, h2, h3⟩ := h0
                  subst h1; subst h2; subst h3
                  cases i with
                  | zero =>
                    simp only [List.getElem?_cons_zero, Option.some.injEq] at hp hg hv hm
                    cases hp
                    cases hg
                    cases hv
                    cases hm
                    refine ⟨fun htrue => ?_,
                      fun _ => ⟨gv0, rfl, by simp, by simp, by simp [hs]⟩⟩
                    rw [hs] at htrue; exact absurd htrue (by simp)
                  | succ k =>
                    simp only [List.getElem?_cons_succ] at hp hg hv hm ⊢
                    exact ih hrec k p g v mv hp hg hv hm

theorem mapMOpt_asParam_map :
    ∀ qs : List Param, mapMOpt PEntry.asParam (qs.map PEntry.param) = some qs := by
  intro qs
  induction qs with
  | nil => rfl
  | cons q qs ih => simp [mapMOpt, PEntry.asParam, ih]

theorem mapMOpt_dictToGroup_eq_none_iff :
    ∀ es : List PEntry, mapMOpt dictToGroup es = none ↔ ∃ e ∈ es, e.isDict = false := by
  intro es
  induction es with
  | nil => simp [mapMOpt]
  | cons e es ih =>
    cases e with
    | param p => simp [mapMOpt, dictToGroup, PEntry.isDict]
    | dict g =>
      simp only [mapMOpt, dictToGroup]
      cases hrec : mapMOpt dictToGroup es with
      | none =>
        refine ⟨fun _ => ?_, fun _ => rfl⟩
        obtain ⟨x, hx, hfalse⟩ := ih.mp hrec
        exact ⟨x, List.mem_cons_of_mem _ hx, hfalse⟩
      | some gs =>
        refine ⟨fun hcontra => absurd hcontra (by simp), ?_⟩
        rintro ⟨x, hx, hfalse⟩
        rcases List.mem_cons.mp hx with h1 | h1
        · subst h1; simp [PEntry.isDict] at hfalse
        · have hn : mapMOpt dictToGroup es = none := ih.mpr ⟨x, h1, hfalse⟩
          rw [hn] at hrec
          exact absurd hrec (by simp)

theorem syncEntry_eq_param {f : ℚ → ℚ} {e : PEntry} {p : Param}
    (h : syncEntry f e = .param p) :
    ∃ q, e = .param q ∧ q.is_stop_grad = p.is_stop_grad ∧ p.value = f q.value := by
  cases e with
  | param q =>
    simp only [syncEntry, PEntry.param.injEq] at h
    exact ⟨q, rfl, by rw [← h], by rw [← h]⟩
  | dict g => simp [syncEntry] at h

theorem sgdGroupStep_zero_eq_base {lr : ℚ} :
    ∀ {ps : List PEntry} {gs : List (Option ℚ)} {vs : List ℚ}
      {ps' : List PEntry} {vs' : List ℚ},
    ps.length ≤ vs.length →
    sgdGroupStep lr 0 0 0 false ps gs vs = some (ps', vs') →
    baseGroupStep lr ps gs = some ps' := by
  intro ps
  induction ps with
  | nil =>
    intro gs vs ps' vs' _ h
    simp only [sgdGroupStep, Option.some.injEq, Prod.mk.injEq] at h
    obtain ⟨h1, _⟩ := h
    subst h1
    cases gs <;> rfl
  | cons e es ih =>
    intro gs vs ps' vs' hlen h
    cases vs with
    | nil => simp at hlen
    | cons v0 vs0 =>
      cases gs with
      | nil =>
        simp only [sgdGroupStep, Option.some.injEq, Prod.mk.injEq] at h
        obtain ⟨h1, _⟩ := h
        subst h1
        rfl
      | cons g0 gs' =>
        cases e with
        | dict d => simp [sgdGroupStep, PEntry.asParam] at h
        | param q =>
          simp only [sgdGroupStep, PEntry.asParam] at h
          simp only [List.length_cons, Nat.add_le_add_iff_right] at hlen
          cases hs : q.is_stop_grad with
          | true =>
            rw [hs] at h
            simp only [if_true] at h
            cases hrec : sgdGroupStep lr 0 0 0 false es gs' vs0 with
            | none => rw [hrec] at h; exact absurd h (by simp)
            | some pr =>
              obtain ⟨ps1, vs1⟩ := pr
              rw [hrec] at h
              simp only [Option.some.injEq, Prod.mk.injEq] at h
              obtain ⟨h1, h2⟩ := h
              subst h1
              have hb := ih hlen hrec
              simp only [baseGroupStep, PEntry.asParam, hs, if_true, hb]
          | false =>
            rw [hs] at h
            simp only [Bool.false_eq_true, if_false] at h
            cases g0 with
            | none => exact absurd h (by simp)
            | some gv0 =>
              have h0 : (match sgdGroupStep lr 0 0 0 false es gs' vs0 with
                  | none => none
                  | some (ps1, vs1) =>
                    some (PEntry.param ⟨q.value -
                        (0 * v0 + (q.value * 0 + gv0) * (1 - 0)) * lr, false⟩ :: ps1,
                      (0 * v0 + (q.value * 0 + gv0) * (1 - 0)) :: vs1)) =
                  some (ps', vs') := h
              cases hrec : sgdGroupStep lr 0 0 0 false es gs' vs0 with
              | none => rw [hrec] at h0; exact absurd h0 (by simp)
              | some pr =>
                obtain ⟨ps1, vs1⟩ := pr
                rw [hrec] at h0
                simp only [Option.some.injEq, Prod.mk.injEq] at h0
                obtain ⟨h1, h2⟩ := h0
                subst h1
                have hb := ih hlen hrec
                simp only [baseGroupStep, PEntry.asParam, hs, Bool.false_eq_true,
                  if_false, hb]
                have hq : q.value - gv0 * lr =
                    q.value - (0 * v0 + (q.value * 0 + gv0) * (1 - 0)) * lr := by ring
                rw [hq]

/-! ## Claim theorems -/

/-- C5: the counter `n_step` starts at 0 at construction (base, SGD, Adam),
increases by exactly 1 per `pre_step` invocation — hence by exactly 1 per
`step` call of the base `Optimizer`, of `SGD` and of `Adam`, whatever the
groups or parameters — and no operation of the module modifies it
otherwise. -/
theorem n_step_counter_spec :
    (∀ (ps : List PEntry) (lr : ℚ) (psi : ℕ) (s : Optimizer),
      Optimizer.init ps lr psi = some s → s.n_step = 0) ∧
    (∀ (ps : List PEntry) (lr mo wd da : ℚ) (ne : Bool) (o : SGD),
      SGD.init ps lr mo wd da ne = some o → o.base.n_step = 0) ∧
    (∀ (ps : List PEntry) (lr ep : ℚ) (bs : ℚ × ℚ) (wd : ℚ) (a : Adam),
      Adam.init ps lr ep bs wd = some a → a.base.n_step = 0) ∧
    (∀ (env : Env) (s t : Optimizer),
      s.pre_step env = some t → t.n_step = s.n_step + 1) ∧
    (∀ (env : Env) (s t : Optimizer),
      Optimizer.step env s = some t → t.n_step = s.n_step + 1) ∧
    (∀ (env : Env) (o o' : SGD),
      SGD.step env o = some o' → o'.base.n_step = o.base.n_step + 1) ∧
    (∀ (env : Env) (a a' : Adam),
      Adam.step env a = some a' → a'.base.n_step = a.base.n_step + 1) := by
  have hinit : ∀ (ps : List PEntry) (lr : ℚ) (psi : ℕ) (s : Optimizer),
      Optimizer.init ps lr psi = some s → s.n_step = 0 := by
    intro ps lr psi s h
    rw [Optimizer.init, Option.map_eq_some'] at h
    obtain ⟨gs, _, rfl⟩ := h
    rfl
  have hpre : ∀ (env : Env) (s t : Optimizer),
      s.pre_step env = some t → t.n_step = s.n_step + 1 := by
    intro env s t h
    exact (pre_step_spec h).2.2.1
  refine ⟨hinit, ?_, ?_, hpre, ?_, ?_, ?_⟩
  · intro ps lr mo wd da ne o h
    rw [SGD.init, Option.bind_eq_some] at h
    obtain ⟨base, hb, h2⟩ := h
    rw [Option.map_eq_some'] at h2
    obtain ⟨gs, _, rfl⟩ := h2
    have hb0 := hinit _ _ _ _ hb
    exact hb0
  · intro ps lr ep bs wd a h
    rw [Adam.init, Option.bind_eq_some] at h
    obtain ⟨base, hb, h2⟩ := h
    by_cases hwd : wd = 0
    · rw [if_pos hwd, Option.map_eq_some'] at h2
      obtain ⟨gs, _, rfl⟩ := h2
      have hb0 := hinit _ _ _ _ hb
      exact hb0
    · rw [if_neg hwd] at h2
      exact absurd h2 (by simp)
  · intro env s t h
    rw [Optimizer.step, Option.bind_eq_some] at h
    obtain ⟨t1, hp, h2⟩ := h
    rw [Option.map_eq_some'] at h2
    obtain ⟨gs, _, rfl⟩ := h2
    have hp0 := hpre _ _ _ hp
    exact hp0
  · intro env o o' h
    rw [SGD.step, Option.bind_eq_some] at h
    obtain ⟨t1, hp, h2⟩ := h
    rw [Option.map_eq_some'] at h2
    obtain ⟨gs, _, rfl⟩ := h2
    have hp0 := hpre _ _ _ hp
    exact hp0
  · intro env a a' h
    rw [Adam.step, Option.bind_eq_some] at h
    obtain ⟨t1, hp, h2⟩ := h
    rw [Option.map_eq_some'] at h2
    obtain ⟨gs, _, rfl⟩ := h2
    have hp0 := hpre _ _ _ hp
    exact hp0

/-- Witness for C5 at concrete states: a constructed optimizer starts at
`n_step = 0`, and one `pre_step` / one `step` of each variant moves the
concrete state `exOpt` from 0 to 1. -/
theorem n_step_counter_spec_witness :
    (∃ s, Optimizer.init [.param exParam] 1 10000 = some s ∧ s.n_step = 0) ∧
    (∃ o, SGD.init [.param exParam] 1 0 0 0 false = some o ∧ o.base.n_step = 0) ∧
    (∃ a, Adam.init [.param exParam] 1 (1/100) (1/2, 1/3) 0 = some a ∧
      a.base.n_step = 0) ∧
    (∃ t, exOpt.pre_step exEnv = some t ∧ t.n_step = exOpt.n_step + 1) ∧
    (∃ t, Optimizer.step exEnv exOpt = some t ∧ t.n_step = exOpt.n_step + 1) ∧
    (∃ o', SGD.step exEnv exSGD = some o' ∧
      o'.base.n_step = exSGD.base.n_step + 1) ∧
    (∃ a', Adam.step exEnv exAdam = some a' ∧
      a'.base.n_step = exAdam.base.n_step + 1) := by
  obtain ⟨h1, h2, h3, h4, h5, h6, h7⟩ := n_step_counter_spec
  refine ⟨⟨_, rfl, ?_⟩, ⟨_, rfl, ?_⟩, ⟨_, rfl, ?_⟩, ⟨_, rfl, ?_⟩, ⟨_, rfl, ?_⟩,
    ⟨_, rfl, ?_⟩, ⟨_, rfl, ?_⟩⟩
  · exact h1 [.param exParam] 1 10000 _ rfl
  · exact h2 [.param exParam] 1 0 0 0 false _ rfl
  · exact h3 [.param exParam] 1 (1/100) (1/2, 1/3) 0 _ rfl
  · exact h4 exEnv exOpt _ rfl
  · exact h5 exEnv exOpt _ rfl
  · exact h6 exEnv exSGD _ rfl
  · exact h7 exEnv exAdam _ rfl

theorem mapMOpt_sgd_alloc (qs : List Param) :
    mapMOpt (fun pg : ParamGroup => (mapMOpt PEntry.asParam pg.params).map fun ps =>
        { pg with values := ps.map fun _ => (0 : ℚ) })
      [{ params := qs.map PEntry.param }] =
    some [{ params := qs.map PEntry.param
            values := qs.map fun _ => (0 : ℚ) }] := by
  simp [mapMOpt, mapMOpt_asParam_map]

theorem mapMOpt_adam_alloc (qs : List Param) :
    mapMOpt (fun pg : ParamGroup => (mapMOpt PEntry.asParam pg.params).map fun ps =>
        { pg with values := ps.map fun _ => (0 : ℚ)
                  m := ps.map fun _ => (0 : ℚ) })
      [{ params := qs.map PEntry.param }] =
    some [{ params := qs.map PEntry.param
            values := qs.map fun _ => (0 : ℚ)
            m := qs.map fun _ => (0 : ℚ) }] := by
  simp [mapMOpt, mapMOpt_asParam_map]

/-- C8: construction of any variant with an empty parameter sequence fails;
Adam with non-zero `weight_decay` fails at construction regardless of the
parameters; a non-empty raw parameter sequence (with `weight_decay = 0` for
Adam) does not fail for these reasons. -/
theorem construction_failure_spec :
    (∀ (lr : ℚ) (psi : ℕ), Optimizer.init [] lr psi = none) ∧
    (∀ (lr mo wd da : ℚ) (ne : Bool), SGD.init [] lr mo wd da ne = none) ∧
    (∀ (lr ep : ℚ) (bs : ℚ × ℚ) (wd : ℚ), Adam.init [] lr ep bs wd = none) ∧
    (∀ (ps : List PEntry) (lr ep : ℚ) (bs : ℚ × ℚ) (wd : ℚ), wd ≠ 0 →
      Adam.init ps lr ep bs wd = none) ∧
    (∀ (qs : List Param) (lr : ℚ) (psi : ℕ), qs ≠ [] →
      ∃ s, Optimizer.init (qs.map PEntry.param) lr psi = some s) ∧
    (∀ (qs : List Param) (lr mo wd da : ℚ) (ne : Bool), qs ≠ [] →
      ∃ o, SGD.init (qs.map PEntry.param) lr mo wd da ne = some o) ∧
    (∀ (qs : List Param) (lr ep : ℚ) (bs : ℚ × ℚ), qs ≠ [] →
      ∃ a, Adam.init (qs.map PEntry.param) lr ep bs 0 = some a) := by
  have hinit : ∀ (qs : List Param) (lr : ℚ) (psi : ℕ), qs ≠ [] →
      Optimizer.init (qs.map PEntry.param) lr psi =
        some { param_groups := [{ params := qs.map PEntry.param }], lr := lr
               param_sync_iter := psi, n_step := 0 } := by
    intro qs lr psi hne
    cases qs with
    | nil => exact absurd rfl hne
    | cons q qs' => rfl
  refine ⟨fun lr psi => rfl, fun lr mo wd da ne => rfl, fun lr ep bs wd => rfl,
    ?_, ?_, ?_, ?_⟩
  · intro ps lr ep bs wd hwd
    rw [Adam.init]
    cases Optimizer.init ps lr with
    | none => rfl
    | some base => simp only [Option.some_bind]; rw [if_neg hwd]
  · intro qs lr psi hne
    exact ⟨_, hinit qs lr psi hne⟩
  · intro qs lr mo wd da ne hne
    rw [SGD.init, hinit qs lr 10000 hne]
    simp only [Option.some_bind]
    rw [mapMOpt_sgd_alloc qs]
    exact ⟨_, rfl⟩
  · intro qs lr ep bs hne
    rw [Adam.init, hinit qs lr 10000 hne]
    simp only [Option.some_bind, if_pos rfl]
    rw [mapMOpt_adam_alloc qs]
    exact ⟨_, rfl⟩

/-- Witness for C8 at concrete inputs: Adam with `weight_decay = 1` fails on
a non-empty list, and all three variants succeed on the one-parameter list
`[exParam]` (with `weight_decay = 0` for Adam). -/
theorem construction_failure_spec_witness :
    Optimizer.init [] 1 10000 = none ∧
    SGD.init [] 1 0 0 0 false = none ∧
    Adam.init [] 1 (1/100) (1/2, 1/3) 0 = none ∧
    Adam.init [.param exParam] 1 (1/100) (1/2, 1/3) 1 = none ∧
    (∃ s, Optimizer.init [PEntry.param exParam] 1 10000 = some s) ∧
    (∃ o, SGD.init [PEntry.param exParam] 1 0 0 0 false = some o) ∧
    (∃ a, Adam.init [PEntry.param exParam] 1 (1/100) (1/2, 1/3) 0 = some a) := by
  obtain ⟨h1, h2, h3, h4, h5, h6, h7⟩ := construction_failure_spec
  exact ⟨h1 1 10000, h2 1 0 0 0 false, h3 1 (1/100) (1/2, 1/3) 0,
    h4 [.param exParam] 1 (1/100) (1/2, 1/3) 1 (by norm_num),
    h5 [exParam] 1 10000 (by simp), h6 [exParam] 1 0 0 0 false (by simp),
    h7 [exParam] 1 (1/100) (1/2, 1/3) (by simp)⟩

/-- C10: the raw-vs-dict decision is made solely from the first element of
the constructor input: a non-dict first element wraps the whole sequence
into one group even when later elements are dicts; a dict first element
makes construction fail exactly when some later element is not a dict. -/
theorem init_first_element_decides :
    (∀ (p : Param) (rest : List PEntry),
      Optimizer.initGroups (.param p :: rest) =
        some [{ params := .param p :: rest }]) ∧
    (∀ (g : GroupSpec) (rest : List PEntry),
      Optimizer.initGroups (.dict g :: rest) = none ↔
        ∃ e ∈ rest, e.isDict = false) := by
  constructor
  · intro p rest
    rw [Optimizer.initGroups, if_neg (by simp [PEntry.isDict])]
  · intro g rest
    rw [Optimizer.initGroups, if_pos (by simp [PEntry.isDict])]
    rw [mapMOpt_dictToGroup_eq_none_iff]
    constructor
    · rintro ⟨e, he, hfalse⟩
      rcases List.mem_cons.mp he with h1 | h1
      · subst h1; simp [PEntry.isDict] at hfalse
      · exact ⟨e, h1, hfalse⟩
    · rintro ⟨e, he, hfalse⟩
      exact ⟨e, List.mem_cons_of_mem _ he, hfalse⟩

/-- Witness for C10 at concrete inputs: a raw first element wraps everything
(a later dict included) into one group; a dict first element followed by a
raw parameter fails; two dicts succeed. -/
theorem init_first_element_decides_witness :
    Optimizer.initGroups [.param exParam, .dict exSpec] =
      some [{ params := [.param exParam, .dict exSpec] }] ∧
    Optimizer.initGroups [.dict exSpec, .param exParam] = none ∧
    ¬ Optimizer.initGroups [.dict exSpec, .dict exSpec] = none := by
  obtain ⟨h1, h2⟩ := init_first_element_decides
  refine ⟨h1 exParam [.dict exSpec], ?_, ?_⟩
  · exact (h2 exSpec [.param exParam]).mpr ⟨.param exParam, by simp, rfl⟩
  · intro hcontra
    obtain ⟨e, he, hfalse⟩ := (h2 exSpec [.dict exSpec]).mp hcontra
    simp at he
    rw [he] at hfalse
    exact absurd hfalse (by simp [PEntry.isDict])

/-- C4: after a `pre_step`, every group's `grads` list has exactly the
length of its `params` list, a slot is `None` exactly when the parameter is
stop-gradient, and a non-stop-gradient slot holds the gradient the batched
backward call produced at the parameter's position in the filtered
flatten-groups-then-params ordering (mean all-reduced when distributed). -/
theorem pre_step_grads_aligned {env : Env} {s t : Optimizer}
    (h : s.pre_step env = some t) :
    ∀ gi pg, s.param_groups[gi]? = some pg →
      ∃ pg', t.param_groups[gi]? = some pg' ∧
        pg'.grads.length = pg'.params.length ∧
        ∀ (i : ℕ) (p : Param), pg'.params[i]? = some (.param p) →
          ((pg'.grads[i]? = some none) ↔ p.is_stop_grad = true) ∧
          (p.is_stop_grad = false →
            pg'.grads[i]? =
              some (some (env.effGrad (flatGradIdx s.param_groups gi i)))) := by
  intro gi pg hgi
  obtain ⟨pg', hpg', hparams, _, _, _, _, _, _, _, _, _, hglen, hslot⟩ :=
    (pre_step_spec h).2.2.2.2 gi pg hgi
  refine ⟨pg', hpg', ?_, ?_⟩
  · rw [hglen, hparams]
    by_cases hc : env.mpi = true ∧ s.n_step % s.param_sync_iter = 0
    · rw [if_pos hc, List.length_map]
    · rw [if_neg hc]
  · intro i p hp'
    rw [hparams] at hp'
    have hsrc : ∃ q, pg.params[i]? = some (.param q) ∧
        q.is_stop_grad = p.is_stop_grad := by
      by_cases hc : env.mpi = true ∧ s.n_step % s.param_sync_iter = 0
      · rw [if_pos hc, List.getElem?_map, Option.map_eq_some'] at hp'
        obtain ⟨e, he, hse⟩ := hp'
        obtain ⟨q, hq, hqs, _⟩ := syncEntry_eq_param hse
        exact ⟨q, hq ▸ he, hqs⟩
      · rw [if_neg hc] at hp'
        exact ⟨p, hp', rfl⟩
    obtain ⟨q, hq, hqs⟩ := hsrc
    have hgr := hslot i q hq
    rw [hqs] at hgr
    constructor
    · cases hs : p.is_stop_grad with
      | true => simp [hs] at hgr; simp [hgr]
      | false => simp [hs] at hgr; simp [hgr]
    · intro hs
      rw [hs] at hgr
      simpa using hgr

/-- Witness for C4: one `pre_step` of the two-parameter state `exOpt` under
the non-distributed engine `exEnv`. -/
theorem pre_step_grads_aligned_witness :
    ∃ t, exOpt.pre_step exEnv = some t ∧
      ∃ pg', t.param_groups[0]? = some pg' ∧
        pg'.grads.length = pg'.params.length ∧
        ∀ (i : ℕ) (p : Param), pg'.params[i]? = some (.param p) →
          ((pg'.grads[i]? = some none) ↔ p.is_stop_grad = true) ∧
          (p.is_stop_grad = false →
            pg'.grads[i]? =
              some (some (exEnv.effGrad (flatGradIdx exOpt.param_groups 0 i)))) := by
  refine ⟨_, rfl, ?_⟩
  exact @pre_step_grads_aligned exEnv exOpt _ rfl 0 exGroup rfl

/-- C3: under mpi, a `pre_step` performs the full-parameter resync (every
parameter of every group, stop-gradient ones included, replaced by its
cross-worker mean) exactly when `n_step mod param_sync_iter = 0` evaluated
before the increment; in particular in the call made after exactly
`param_sync_iter` completed steps. -/
theorem mpi_param_resync_timing {env : Env} {s t : Optimizer}
    (henv : env.mpi = true) (h : s.pre_step env = some t) :
    t.n_step = s.n_step + 1 ∧
    (∀ (gi : ℕ) (pg : ParamGroup), s.param_groups[gi]? = some pg →
      ∃ pg' : ParamGroup, t.param_groups[gi]? = some pg' ∧
        pg'.params = (if s.n_step % s.param_sync_iter = 0
          then pg.params.map (syncEntry env.reduceMean) else pg.params)) ∧
    (s.n_step = s.param_sync_iter →
      ∀ (gi : ℕ) (pg : ParamGroup), s.param_groups[gi]? = some pg →
        ∃ pg' : ParamGroup, t.param_groups[gi]? = some pg' ∧
          pg'.params = pg.params.map (syncEntry env.reduceMean)) := by
  have hmain : ∀ (gi : ℕ) (pg : ParamGroup), s.param_groups[gi]? = some pg →
      ∃ pg' : ParamGroup, t.param_groups[gi]? = some pg' ∧
        pg'.params = (if s.n_step % s.param_sync_iter = 0
          then pg.params.map (syncEntry env.reduceMean) else pg.params) := by
    intro gi pg hgi
    obtain ⟨pg', hpg', hparams, _⟩ := (pre_step_spec h).2.2.2.2 gi pg hgi
    simp only [henv, eq_self_iff_true, true_and] at hparams
    exact ⟨pg', hpg', hparams⟩
  refine ⟨(pre_step_spec h).2.2.1, hmain, ?_⟩
  intro hn gi pg hgi
  obtain ⟨pg', hpg', hparams⟩ := hmain gi pg hgi
  rw [if_pos (by rw [hn, Nat.mod_self])] at hparams
  exact ⟨pg', hpg', hparams⟩

/-- Witness for C3: `exOptSync` has `n_step = param_sync_iter = 3`, so its
next `pre_step` under the distributed engine `exEnvMpi` resyncs. -/
theorem mpi_param_resync_timing_witness :
    ∃ t, exOptSync.pre_step exEnvMpi = some t ∧
      (t.n_step = exOptSync.n_step + 1 ∧
      (∀ (gi : ℕ) (pg : ParamGroup), exOptSync.param_groups[gi]? = some pg →
        ∃ pg' : ParamGroup, t.param_groups[gi]? = some pg' ∧
          pg'.params = (if exOptSync.n_step % exOptSync.param_sync_iter = 0
            then pg.params.map (syncEntry exEnvMpi.reduceMean) else pg.params)) ∧
      (exOptSync.n_step = exOptSync.param_sync_iter →
        ∀ (gi : ℕ) (pg : ParamGroup), exOptSync.param_groups[gi]? = some pg →
          ∃ pg' : ParamGroup, t.param_groups[gi]? = some pg' ∧
            pg'.params = pg.params.map (syncEntry exEnvMpi.reduceMean))) := by
  refine ⟨_, rfl, ?_⟩
  exact @mpi_param_resync_timing exEnvMpi exOptSync _ rfl rfl

/-- C9: in non-distributed mode a `step` call of any variant leaves a
stop-gradient parameter's value and its auxiliary state slots (velocity for
SGD, `m` and `v` for Adam) completely unchanged. -/
theorem stop_grad_frame (env : Env) (henv : env.mpi = false) :
    (∀ (s t : Optimizer) (gi i : ℕ) (pg : ParamGroup) (p : Param),
      Optimizer.step env s = some t →
      s.param_groups[gi]? = some pg → pg.params[i]? = some (.param p) →
      p.is_stop_grad = true →
      ∃ pg', t.param_groups[gi]? = some pg' ∧
        pg'.params[i]? = some (.param p)) ∧
    (∀ (o o' : SGD) (gi i : ℕ) (pg : ParamGroup) (p : Param) (v : ℚ),
      SGD.step env o = some o' →
      o.base.param_groups[gi]? = some pg → pg.params[i]? = some (.param p) →
      pg.values[i]? = some v → p.is_stop_grad = true →
      ∃ pg', o'.base.param_groups[gi]? = some pg' ∧
        pg'.params[i]? = some (.param p) ∧ pg'.values[i]? = some v) ∧
    (∀ (a a' : Adam) (gi i : ℕ) (pg : ParamGroup) (p : Param) (v mv : ℚ),
      Adam.step env a = some a' →
      a.base.param_groups[gi]? = some pg → pg.params[i]? = some (.param p) →
      pg.values[i]? = some v → pg.m[i]? = some mv → p.is_stop_grad = true →
      ∃ pg', a'.base.param_groups[gi]? = some pg' ∧
        pg'.params[i]? = some (.param p) ∧ pg'.values[i]? = some v ∧
        pg'.m[i]? = some mv) := by
  have hmid : ∀ (s t1 : Optimizer) (gi i : ℕ) (pg : ParamGroup) (p : Param),
      s.pre_step env = some t1 →
      s.param_groups[gi]? = some pg → pg.params[i]? = some (.param p) →
      p.is_stop_grad = true →
      ∃ pg1, t1.param_groups[gi]? = some pg1 ∧ pg1.params = pg.params ∧
        pg1.values = pg.values ∧ pg1.m = pg.m ∧
        pg1.grads[i]? = some none := by
    intro s t1 gi i pg p hpre hgi hp hstop
    obtain ⟨pg1, hpg1, hparams, hvals, hms, _, _, _, _, _, _, _, _, hslot⟩ :=
      (pre_step_spec hpre).2.2.2.2 gi pg hgi
    rw [if_neg (by rintro ⟨hmm, _⟩; rw [henv] at hmm; exact absurd hmm (by simp))]
      at hparams
    have hgr := hslot i p hp
    rw [hstop] at hgr
    simp only [if_true] at hgr
    exact ⟨pg1, hpg1, hparams, hvals, hms, hgr⟩
  refine ⟨?_, ?_, ?_⟩
  · intro s t gi i pg p hstep hgi hp hstop
    rw [Optimizer.step, Option.bind_eq_some] at hstep
    obtain ⟨t1, hpre, h2⟩ := hstep
    rw [Option.map_eq_some'] at h2
    obtain ⟨gs, hmapM, rfl⟩ := h2
    obtain ⟨pg1, hpg1, hparams, _, _, hgr⟩ := hmid s t1 gi i pg p hpre hgi hp hstop
    obtain ⟨pg', hpg', hf⟩ := mapMOpt_getElem? hmapM hpg1
    rw [Option.map_eq_some'] at hf
    obtain ⟨ps', hbgs, rfl⟩ := hf
    rw [hparams] at hbgs
    have := (baseGroupStep_spec hbgs i p none hp hgr).1 hstop
    exact ⟨_, hpg', this⟩
  · intro o o' gi i pg p v hstep hgi hp hv hstop
    rw [SGD.step, Option.bind_eq_some] at hstep
    obtain ⟨t1, hpre, h2⟩ := hstep
    rw [Option.map_eq_some'] at h2
    obtain ⟨gs, hmapM, rfl⟩ := h2
    obtain ⟨pg1, hpg1, hparams, hvals, _, hgr⟩ := hmid _ t1 gi i pg p hpre hgi hp hstop
    obtain ⟨pg', hpg', hf⟩ := mapMOpt_getElem? hmapM hpg1
    rw [Option.map_eq_some'] at hf
    obtain ⟨r, hsgd, rfl⟩ := hf
    rw [hparams, hvals] at hsgd
    have := (sgdGroupStep_spec hsgd i p none v hp hgr hv).1 hstop
    exact ⟨_, hpg', this.1, this.2⟩
  · intro a a' gi i pg p v mv hstep hgi hp hv hm hstop
    rw [Adam.step, Option.bind_eq_some] at hstep
    obtain ⟨t1, hpre, h2⟩ := hstep
    rw [Option.map_eq_some'] at h2
    obtain ⟨gs, hmapM, rfl⟩ := h2
    obtain ⟨pg1, hpg1, hparams, hvals, hms, hgr⟩ := hmid _ t1 gi i pg p hpre hgi hp hstop
    obtain ⟨pg', hpg', hf⟩ := mapMOpt_getElem? hmapM hpg1
    rw [Option.map_eq_some'] at hf
    obtain ⟨r, hadam, rfl⟩ := hf
    rw [hparams, hvals, hms] at hadam
    have := (adamGroupStep_spec hadam i p none v mv hp hgr hv hm).1 hstop
    exact ⟨_, hpg', this.1, this.2.1, this.2.2⟩

/-- Witness for C9: the stop-gradient parameter `exStop` (index 1 of
`exGroup`, value 5, velocity 4, first moment 8) is untouched by one base,
SGD and Adam step of the concrete states. -/
theorem stop_grad_frame_witness :
    (∃ t, Optimizer.step exEnv exOpt = some t ∧
      ∃ pg', t.param_groups[0]? = some pg' ∧
        pg'.params[1]? = some (.param exStop)) ∧
    (∃ o', SGD.step exEnv exSGD = some o' ∧
      ∃ pg', o'.base.param_groups[0]? = some pg' ∧
        pg'.params[1]? = some (.param exStop) ∧ pg'.values[1]? = some 4) ∧
    (∃ a', Adam.step exEnv exAdam = some a' ∧
      ∃ pg', a'.base.param_groups[0]? = some pg' ∧
        pg'.params[1]? = some (.param exStop) ∧ pg'.values[1]? = some 4 ∧
        pg'.m[1]? = some 8) := by
  obtain ⟨h1, h2, h3⟩ := stop_grad_frame exEnv rfl
  exact ⟨⟨_, rfl, h1 exOpt _ 0 1 exGroup exStop rfl rfl rfl rfl⟩,
    ⟨_, rfl, h2 exSGD _ 0 1 exGroup exStop 4 rfl rfl rfl rfl rfl⟩,
    ⟨_, rfl, h3 exAdam _ 0 1 exGroup exStop 4 8 rfl rfl rfl rfl rfl rfl⟩⟩

/-- C1: for a non-stop-gradient parameter `p` with gradient `g` and previous
velocity `v`, one `SGD.step` stores the velocity
`v_new = momentum*v + dp*(1-dampening)` with `dp = p*weight_decay + g` in
place and sets the parameter to `p - lr*(dp + momentum*v_new)` when nesterov
(using the already-updated velocity) and to `p - lr*v_new` otherwise, with
all hyperparameters the group's overrides or the optimizer defaults. -/
theorem sgd_step_update {env : Env} {o o' : SGD} {t : Optimizer}
    (hpre : o.base.pre_step env = some t)
    (hstep : SGD.step env o = some o')
    (gi i : ℕ) (pg : ParamGroup) (p : Param) (g v : ℚ)
    (hgi : t.param_groups[gi]? = some pg)
    (hp : pg.params[i]? = some (.param p))
    (hstop : p.is_stop_grad = false)
    (hg : pg.grads[i]? = some (some g))
    (hv : pg.values[i]? = some v) :
    ∃ pg' : ParamGroup, o'.base.param_groups[gi]? = some pg' ∧
      pg'.values[i]? = some (pg.momentum.getD o.momentum * v +
        (p.value * pg.weight_decay.getD o.weight_decay + g) *
        (1 - pg.dampening.getD o.dampening)) ∧
      pg'.params[i]? = some (.param { p with value :=
        if (pg.nesterov.getD o.nesterov) = true
        then p.value - (pg.lr.getD t.lr) *
          ((p.value * (pg.weight_decay.getD o.weight_decay) + g) +
            (pg.momentum.getD o.momentum) *
              ((pg.momentum.getD o.momentum) * v +
                (p.value * (pg.weight_decay.getD o.weight_decay) + g) *
                (1 - pg.dampening.getD o.dampening)))
        else p.value - (pg.lr.getD t.lr) *
          ((pg.momentum.getD o.momentum) * v +
            (p.value * (pg.weight_decay.getD o.weight_decay) + g) *
            (1 - pg.dampening.getD o.dampening)) }) := by
  rw [SGD.step, Option.bind_eq_some] at hstep
  obtain ⟨t1, hpre1, h2⟩ := hstep
  rw [hpre, Option.some_inj] at hpre1
  subst hpre1
  rw [Option.map_eq_some'] at h2
  obtain ⟨gs, hmapM, rfl⟩ := h2
  obtain ⟨pg', hpg', hf⟩ := mapMOpt_getElem? hmapM hgi
  rw [Option.map_eq_some'] at hf
  obtain ⟨r, hsgd, rfl⟩ := hf
  obtain ⟨gv, hgv, hv', hp'⟩ := (sgdGroupStep_spec hsgd i p (some g) v hp hg hv).2 hstop
  rw [Option.some_inj] at hgv
  subst hgv
  refine ⟨_, hpg', hv', ?_⟩
  show r.1[i]? = _
  rw [hp']
  cases hne : pg.nesterov.getD o.nesterov with
  | true =>
    simp only [if_true]
    exact congrArg (fun x => some (PEntry.param { p with value := x })) (by ring)
  | false =>
    simp only [Bool.false_eq_true, if_false]
    exact congrArg (fun x => some (PEntry.param { p with value := x })) (by ring)

/-- Witness for C1: one SGD step of `exSGD` (momentum 1/2, weight decay 1,
nesterov) on `exParam` (value 1, gradient 2, previous velocity 3) yields
velocity 9/2 and parameter value -17/4. -/
theorem sgd_step_update_witness :
    ∃ o', SGD.step exEnv exSGD = some o' ∧
      ∃ pg' : ParamGroup, o'.base.param_groups[0]? = some pg' ∧
        pg'.values[0]? = some (9/2) ∧
        pg'.params[0]? = some (.param ⟨-17/4, false⟩) := by
  refine ⟨_, rfl, ?_⟩
  obtain ⟨pg', h1, h2, h3⟩ := @sgd_step_update exEnv exSGD _ _ rfl rfl
    0 0 { params := [.param exParam, .param exStop], grads := [some 2, none],
          values := [3, 4], m := [7, 8] }
    exParam 2 3 rfl rfl rfl rfl rfl
  refine ⟨pg', h1, ?_, ?_⟩
  · rw [h2]; norm_num [exSGD, exOpt, exParam]
  · rw [h3]; norm_num [exSGD, exOpt, exParam]

/-- C2: for a non-stop-gradient parameter `p` with gradient `g` and previous
moments `m`, `v`, one `Adam.step` stores `m_new = b0*m + (1-b0)*g` and
`v_new = b1*v + (1-b1)*g*g` in place and sets the parameter to
`p - step_size * m_new / (sqrt(v_new) + eps)` with
`step_size = lr * sqrt(1-b1^n) / (1-b0^n)`, where the exponent `n` is the
`n_step` value after the increment done inside `pre_step`; on a first step
(`n_step = 0` before the call) `step_size = lr * sqrt(1-b1) / (1-b0)`. -/
theorem adam_step_update {env : Env} {o o' : Adam} {t : Optimizer}
    (hpre : o.base.pre_step env = some t)
    (hstep : Adam.step env o = some o')
    (gi i : ℕ) (pg : ParamGroup) (p : Param) (g v mv : ℚ)
    (hgi : t.param_groups[gi]? = some pg)
    (hp : pg.params[i]? = some (.param p))
    (hstop : p.is_stop_grad = false)
    (hg : pg.grads[i]? = some (some g))
    (hv : pg.values[i]? = some v)
    (hm : pg.m[i]? = some mv) :
    t.n_step = o.base.n_step + 1 ∧
    ∃ pg' : ParamGroup, o'.base.param_groups[gi]? = some pg' ∧
      pg'.m[i]? = some ((pg.betas.getD o.betas).1 * mv +
        (1 - (pg.betas.getD o.betas).1) * g) ∧
      pg'.values[i]? = some ((pg.betas.getD o.betas).2 * v +
        (1 - (pg.betas.getD o.betas).2) * g * g) ∧
      pg'.params[i]? = some (.param { p with value :=
        p.value - (pg.lr.getD t.lr *
            env.sqrt (1 - (pg.betas.getD o.betas).2 ^ t.n_step) /
            (1 - (pg.betas.getD o.betas).1 ^ t.n_step)) *
          ((pg.betas.getD o.betas).1 * mv + (1 - (pg.betas.getD o.betas).1) * g) /
          (env.sqrt ((pg.betas.getD o.betas).2 * v +
            (1 - (pg.betas.getD o.betas).2) * g * g) + pg.eps.getD o.eps) }) ∧
      (o.base.n_step = 0 →
        pg'.params[i]? = some (.param { p with value :=
          p.value - (pg.lr.getD t.lr *
              env.sqrt (1 - (pg.betas.getD o.betas).2) /
              (1 - (pg.betas.getD o.betas).1)) *
            ((pg.betas.getD o.betas).1 * mv +
              (1 - (pg.betas.getD o.betas).1) * g) /
            (env.sqrt ((pg.betas.getD o.betas).2 * v +
              (1 - (pg.betas.getD o.betas).2) * g * g) + pg.eps.getD o.eps) })) := by
  have hn : t.n_step = o.base.n_step + 1 := (pre_step_spec hpre).2.2.1
  rw [Adam.step, Option.bind_eq_some] at hstep
  obtain ⟨t1, hpre1, h2⟩ := hstep
  rw [hpre, Option.some_inj] at hpre1
  subst hpre1
  rw [Option.map_eq_some'] at h2
  obtain ⟨gs, hmapM, rfl⟩ := h2
  obtain ⟨pg', hpg', hf⟩ := mapMOpt_getElem? hmapM hgi
  rw [Option.map_eq_some'] at hf
  obtain ⟨r, hadam, rfl⟩ := hf
  obtain ⟨gv, hgv, hm', hv', hp'⟩ :=
    (adamGroupStep_spec hadam i p (some g) v mv hp hg hv hm).2 hstop
  rw [Option.some_inj] at hgv
  subst hgv
  have hmain : (({ pg with params := r.1, values := r.2.1, m := r.2.2 } :
      ParamGroup)).params[i]? = some (.param { p with value :=
        p.value - (pg.lr.getD t.lr *
            env.sqrt (1 - (pg.betas.getD o.betas).2 ^ t.n_step) /
            (1 - (pg.betas.getD o.betas).1 ^ t.n_step)) *
          ((pg.betas.getD o.betas).1 * mv + (1 - (pg.betas.getD o.betas).1) * g) /
          (env.sqrt ((pg.betas.getD o.betas).2 * v +
            (1 - (pg.betas.getD o.betas).2) * g * g) + pg.eps.getD o.eps) }) := by
    show r.1[i]? = _
    rw [hp']
    exact congrArg (fun x => some (PEntry.param { p with value := x })) (by ring)
  refine ⟨hn, _, hpg', hm', hv', hmain, ?_⟩
  intro h0
  rw [hn, h0] at hmain
  simpa only [zero_add, pow_one] using hmain

/-- Witness for C2: one Adam step of `exAdam` (lr 1, eps 1/100,
betas (1/2, 1/3)) on `exParam` (value 1, gradient 2, previous moments
m = 7, v = 3) with `n_step` going 0 to 1 yields `m = 9/2`, `v = 11/3` and
parameter value `-697/1103`; the closed-form first-step `step_size` applies
since this is the first step. -/
theorem adam_step_update_witness :
    ∃ a', Adam.step exEnv exAdam = some a' ∧
      ∃ pg' : ParamGroup, a'.base.param_groups[0]? = some pg' ∧
        pg'.m[0]? = some (9/2) ∧ pg'.values[0]? = some (11/3) ∧
        pg'.params[0]? = some (.param ⟨-697/1103, false⟩) := by
  refine ⟨_, rfl, ?_⟩
  obtain ⟨hn, pg', h1, hm, hv, hp, hfirst⟩ :=
    @adam_step_update exEnv exAdam _ _ rfl rfl
      0 0 { params := [.param exParam, .param exStop], grads := [some 2, none],
            values := [3, 4], m := [7, 8] }
      exParam 2 3 7 rfl rfl rfl rfl rfl rfl
  have hp0 := hfirst rfl
  refine ⟨pg', h1, ?_, ?_, ?_⟩
  · rw [hm]; norm_num [exAdam, exOpt, exParam]
  · rw [hv]; norm_num [exAdam, exOpt, exParam]
  · rw [hp0]; norm_num [exAdam, exOpt, exParam, exEnv]

/-- C6: with effective momentum, weight decay and dampening all 0 and
nesterov off (in every group), one `SGD.step` produces exactly the parameter
values of one base `Optimizer.step` with the same effective learning rate,
namely `p - lr*g` per non-stop-gradient parameter.  (The velocity lists are
assumed at least as long as the parameter lists, as `SGD.__init__`
guarantees.) -/
theorem sgd_plain_refines_base {env : Env} {o : SGD} {t' : SGD} {u' : Optimizer}
    (hhyp : ∀ pg ∈ o.base.param_groups,
      pg.momentum.getD o.momentum = 0 ∧ pg.weight_decay.getD o.weight_decay = 0 ∧
      pg.dampening.getD o.dampening = 0 ∧ pg.nesterov.getD o.nesterov = false)
    (hlen : ∀ pg ∈ o.base.param_groups, pg.params.length ≤ pg.values.length)
    (hsgd : SGD.step env o = some t')
    (hbase : Optimizer.step env o.base = some u') :
    t'.base.param_groups.map ParamGroup.params =
      u'.param_groups.map ParamGroup.params ∧
    (∀ t : Optimizer, o.base.pre_step env = some t →
      ∀ (gi i : ℕ) (pg : ParamGroup) (p : Param) (g : ℚ),
        t.param_groups[gi]? = some pg →
        pg.params[i]? = some (.param p) → p.is_stop_grad = false →
        pg.grads[i]? = some (some g) →
        ∃ pg' : ParamGroup, t'.base.param_groups[gi]? = some pg' ∧
          pg'.params[i]? = some (.param { p with value :=
            p.value - (pg.lr.getD o.base.lr) * g })) := by
  rw [SGD.step, Option.bind_eq_some] at hsgd
  obtain ⟨t1, hpre1, h2⟩ := hsgd
  rw [Option.map_eq_some'] at h2
  obtain ⟨gsS, hmapS, rfl⟩ := h2
  rw [Optimizer.step, Option.bind_eq_some] at hbase
  obtain ⟨t2, hpre2, h3⟩ := hbase
  rw [hpre1, Option.some_inj] at hpre2
  subst hpre2
  rw [Option.map_eq_some'] at h3
  obtain ⟨gsB, hmapB, rfl⟩ := h3
  have hspec := pre_step_spec hpre1
  have hlr : t1.lr = o.base.lr := hspec.1
  -- transported per-group facts on the post-pre_step groups
  have htrans : ∀ (n : ℕ) (pg1 : ParamGroup), t1.param_groups[n]? = some pg1 →
      pg1.momentum.getD o.momentum = 0 ∧
      pg1.weight_decay.getD o.weight_decay = 0 ∧
      pg1.dampening.getD o.dampening = 0 ∧
      pg1.nesterov.getD o.nesterov = false ∧
      pg1.params.length ≤ pg1.values.length := by
    intro n pg1 hn
    have hlt : n < t1.param_groups.length := by
      by_contra hc
      rw [List.getElem?_eq_none_iff.mpr (le_of_not_lt hc)] at hn
      exact absurd hn (by simp)
    rw [hspec.2.2.2.1] at hlt
    cases hsg : o.base.param_groups[n]? with
    | none =>
      rw [List.getElem?_eq_none_iff] at hsg
      omega
    | some pg0 =>
      obtain ⟨pg1', hpg1', hparams, hvals, _, _, hmom, hwd, hdamp, hnes, _, _, _, _⟩ :=
        hspec.2.2.2.2 n pg0 hsg
      rw [hn, Option.some_inj] at hpg1'
      subst hpg1'
      obtain ⟨hm0, hw0, hd0, hn0⟩ := hhyp pg0 (List.getElem?_mem hsg)
      have hl0 := hlen pg0 (List.getElem?_mem hsg)
      refine ⟨by rw [hmom]; exact hm0, by rw [hwd]; exact hw0,
        by rw [hdamp]; exact hd0, by rw [hnes]; exact hn0, ?_⟩
      rw [hvals, hparams]
      by_cases hc : env.mpi = true ∧ o.base.n_step % o.base.param_sync_iter = 0
      · rw [if_pos hc, List.length_map]; exact hl0
      · rw [if_neg hc]; exact hl0
  constructor
  · rw [List.ext_getElem?_iff]
    intro n
    rw [List.getElem?_map, List.getElem?_map]
    cases hn : t1.param_groups[n]? with
    | none =>
      have hlen1 : t1.param_groups.length ≤ n := by
        by_contra hc
        rw [← List.getElem?_eq_none_iff] at hc
        · exact absurd hn (by simpa using hc)
      have : gsS[n]? = none := List.getElem?_eq_none_iff.mpr
        (by rw [mapMOpt_length hmapS]; exact hlen1)
      have hB : gsB[n]? = none := List.getElem?_eq_none_iff.mpr
        (by rw [mapMOpt_length hmapB]; exact hlen1)
      rw [this, hB]
    | some pg1 =>
      obtain ⟨hm1, hw1, hd1, hn1, hl1⟩ := htrans n pg1 hn
      obtain ⟨pgS, hpgS, hfS⟩ := mapMOpt_getElem? hmapS hn
      obtain ⟨pgB, hpgB, hfB⟩ := mapMOpt_getElem? hmapB hn
      rw [Option.map_eq_some'] at hfS hfB
      obtain ⟨r, hsgdS, rfl⟩ := hfS
      obtain ⟨ps', hbgsB, rfl⟩ := hfB
      rw [hm1, hw1, hd1, hn1] at hsgdS
      have hb := sgdGroupStep_zero_eq_base hl1 hsgdS
      rw [hbgsB, Option.some_inj] at hb
      rw [hpgS, hpgB]
      simp only [Option.map_some']
      rw [hb]
  · intro t hpre gi i pg p g hgi hp hstop hg
    rw [hpre1, Option.some_inj] at hpre
    subst hpre
    obtain ⟨hm1, hw1, hd1, hn1, hl1⟩ := htrans gi pg hgi
    obtain ⟨pgS, hpgS, hfS⟩ := mapMOpt_getElem? hmapS hgi
    rw [Option.map_eq_some'] at hfS
    obtain ⟨r, hsgdS, rfl⟩ := hfS
    have hiv : i < pg.values.length := by
      have hip : i < pg.params.length := by
        by_contra hc
        rw [List.getElem?_eq_none_iff.mpr (le_of_not_lt hc)] at hp
        exact absurd hp (by simp)
      omega
    cases hvv : pg.values[i]? with
    | none =>
      rw [List.getElem?_eq_none_iff] at hvv
      omega
    | some v =>
      rw [hm1, hw1, hd1, hn1] at hsgdS
      obtain ⟨gv, hgv, _, hp'⟩ := (sgdGroupStep_spec hsgdS i p (some g) v hp hg hvv).2 hstop
      rw [Option.some_inj] at hgv
      subst hgv
      refine ⟨_, hpgS, ?_⟩
      show r.1[i]? = _
      rw [hp']
      simp only [Bool.false_eq_true, if_false]
      rw [hlr]
      exact congrArg (fun x => some (PEntry.param { p with value := x })) (by ring)

/-- Witness for C6 at the concrete state `exSGDPlain` (all hyperparameters
zero): one SGD step and one base step from the same state give the same
parameter lists, and the updated parameter is `1 - 1*2 = -1`. -/
theorem sgd_plain_refines_base_witness :
    ∃ t', SGD.step exEnv exSGDPlain = some t' ∧
    ∃ u', Optimizer.step exEnv exSGDPlain.base = some u' ∧
      t'.base.param_groups.map ParamGroup.params =
        u'.param_groups.map ParamGroup.params ∧
      ∃ pg' : ParamGroup, t'.base.param_groups[0]? = some pg' ∧
        pg'.params[0]? = some (.param ⟨-1, false⟩) := by
  refine ⟨_, rfl, _, rfl, ?_, ?_⟩
  · exact (@sgd_plain_refines_base exEnv exSGDPlain _ _ (by decide) (by decide)
      rfl rfl).1
  · obtain ⟨pg', h1, h2⟩ := (@sgd_plain_refines_base exEnv exSGDPlain _ _
      (by decide) (by decide) rfl rfl).2 _ rfl 0 0
      { params := [.param exParam, .param exStop], grads := [some 2, none],
        values := [3, 4], m := [7, 8] }
      exParam 2 rfl rfl rfl rfl
    refine ⟨pg', h1, ?_⟩
    rw [h2]
    norm_num [exSGDPlain, exOpt, exParam]

/-- C7 counterexample: a zero-gradient `SGD.step` with non-zero effective
weight decay does NOT leave the velocity at `momentum * v_prev`: with
`exSGD` (momentum 1/2, weight decay 1) and previous velocity 3, the new
velocity is 5/2 while `momentum * v_prev = 3/2`. -/
theorem zero_grad_velocity_decay_counterexample :
    (∀ k : ℕ, exEnvZero.grad k = 0) ∧
    ∃ o', SGD.step exEnvZero exSGD = some o' ∧
      ∃ pg' : ParamGroup, o'.base.param_groups[0]? = some pg' ∧
        pg'.values[0]? = some (5/2) ∧ exSGD.momentum * 3 = 3/2 ∧
        (5/2 : ℚ) ≠ 3/2 := by
  refine ⟨fun _ => rfl, _, rfl, _, rfl, ?_, ?_, by norm_num⟩
  · norm_num [exSGD, exOpt, exParam, exGroup, exEnvZero, ParamGroup.resetGrads]
  · norm_num [exSGD]

/-- C7 (amended): a step call in which every gradient is zero is not a
no-op but a pure decay of the auxiliary state: SGD (with zero effective
weight decay) leaves the velocity at `momentum * v_prev` and moves the
parameter by `-lr * momentum * v_new` (nesterov) resp. `-lr * v_new`; Adam
leaves the moments at `b0 * m_prev` and `b1 * v_prev` and moves the
parameter by `-step_size * m_new / (sqrt v_new + eps)`; the parameter stays
unchanged exactly when the corresponding decayed update term is zero. -/
theorem zero_grad_step_decays_state (env : Env) (hg0 : ∀ k, env.grad k = 0)
    (hmpi : env.mpi = false) :
    (∀ (o o' : SGD) (gi i : ℕ) (pg : ParamGroup) (p : Param) (v : ℚ),
      SGD.step env o = some o' →
      o.base.param_groups[gi]? = some pg →
      pg.params[i]? = some (.param p) → p.is_stop_grad = false →
      pg.values[i]? = some v →
      pg.weight_decay.getD o.weight_decay = 0 →
      ∃ pg' : ParamGroup, o'.base.param_groups[gi]? = some pg' ∧
        pg'.values[i]? = some ((pg.momentum.getD o.momentum) * v) ∧
        pg'.params[i]? = some (.param { p with value :=
          if (pg.nesterov.getD o.nesterov) = true
          then p.value - (pg.lr.getD o.base.lr) *
            ((pg.momentum.getD o.momentum) * ((pg.momentum.getD o.momentum) * v))
          else p.value - (pg.lr.getD o.base.lr) *
            ((pg.momentum.getD o.momentum) * v) })) ∧
    (∀ (a a' : Adam) (gi i : ℕ) (pg : ParamGroup) (p : Param) (v mv : ℚ),
      Adam.step env a = some a' →
      a.base.param_groups[gi]? = some pg →
      pg.params[i]? = some (.param p) → p.is_stop_grad = false →
      pg.values[i]? = some v → pg.m[i]? = some mv →
      ∃ pg' : ParamGroup, a'.base.param_groups[gi]? = some pg' ∧
        pg'.m[i]? = some ((pg.betas.getD a.betas).1 * mv) ∧
        pg'.values[i]? = some ((pg.betas.getD a.betas).2 * v) ∧
        pg'.params[i]? = some (.param { p with value :=
          p.value - ((pg.lr.getD a.base.lr) *
              env.sqrt (1 - (pg.betas.getD a.betas).2 ^ (a.base.n_step + 1)) /
              (1 - (pg.betas.getD a.betas).1 ^ (a.base.n_step + 1))) *
            ((pg.betas.getD a.betas).1 * mv) /
            (env.sqrt ((pg.betas.getD a.betas).2 * v) +
              (pg.eps.getD a.eps)) })) := by
  have hmid : ∀ (s t1 : Optimizer) (gi i : ℕ) (pg : ParamGroup) (p : Param),
      s.pre_step env = some t1 →
      s.param_groups[gi]? = some pg → pg.params[i]? = some (.param p) →
      p.is_stop_grad = false →
      ∃ pg1, t1.param_groups[gi]? = some pg1 ∧ pg1.params = pg.params ∧
        pg1.values = pg.values ∧ pg1.m = pg.m ∧ pg1.lr = pg.lr ∧
        pg1.momentum = pg.momentum ∧ pg1.weight_decay = pg.weight_decay ∧
        pg1.dampening = pg.dampening ∧ pg1.nesterov = pg.nesterov ∧
        pg1.eps = pg.eps ∧ pg1.betas = pg.betas ∧
        pg1.grads[i]? = some (some 0) ∧ t1.lr = s.lr ∧
        t1.n_step = s.n_step + 1 := by
    intro s t1 gi i pg p hpre hgi hp hstop
    obtain ⟨pg1, hpg1, hparams, hvals, hms, hlr, hmo, hwd, hda, hne, hep, hbe,
      _, hslot⟩ := (pre_step_spec hpre).2.2.2.2 gi pg hgi
    rw [if_neg (by rintro ⟨hmm, _⟩; rw [hmpi] at hmm; exact absurd hmm (by simp))]
      at hparams
    have hgr := hslot i p hp
    rw [hstop] at hgr
    simp only [Bool.false_eq_true, if_false] at hgr
    rw [show env.effGrad (flatGradIdx s.param_groups gi i) = 0 from by
      rw [Env.effGrad, if_neg (by rw [hmpi]; simp)]; exact hg0 _] at hgr
    exact ⟨pg1, hpg1, hparams, hvals, hms, hlr, hmo, hwd, hda, hne, hep, hbe,
      hgr, (pre_step_spec hpre).1, (pre_step_spec hpre).2.2.1⟩
  constructor
  · intro o o' gi i pg p v hstep hgi hp hstop hv hwd0
    rw [SGD.step, Option.bind_eq_some] at hstep
    obtain ⟨t1, hpre, h2⟩ := hstep
    rw [Option.map_eq_some'] at h2
    obtain ⟨gs, hmapM, rfl⟩ := h2
    obtain ⟨pg1, hpg1, hparams, hvals, _, hlr, hmo, hwd, hda, hne, _, _, hgr,
      htlr, _⟩ := hmid _ t1 gi i pg p hpre hgi hp hstop
    obtain ⟨pg', hpg', hf⟩ := mapMOpt_getElem? hmapM hpg1
    rw [Option.map_eq_some'] at hf
    obtain ⟨r, hsgd, rfl⟩ := hf
    rw [hparams, hvals, hmo, hwd, hda, hne, hlr, htlr, hwd0] at hsgd
    obtain ⟨gv, hgv, hv', hp'⟩ := (sgdGroupStep_spec hsgd i p (some 0) v hp hgr hv).2 hstop
    rw [Option.some_inj] at hgv
    subst hgv
    refine ⟨_, hpg', ?_, ?_⟩
    · show r.2[i]? = _
      rw [hv']
      exact congrArg some (by ring)
    · show r.1[i]? = _
      rw [hp']
      cases hnes : pg.nesterov.getD o.nesterov with
      | true =>
        simp only [if_true]
        exact congrArg (fun x => some (PEntry.param { p with value := x })) (by ring)
      | false =>
        simp only [Bool.false_eq_true, if_false]
        exact congrArg (fun x => some (PEntry.param { p with value := x })) (by ring)
  · intro a a' gi i pg p v mv hstep hgi hp hstop hv hm
    rw [Adam.step, Option.bind_eq_some] at hstep
    obtain ⟨t1, hpre, h2⟩ := hstep
    rw [Option.map_eq_some'] at h2
    obtain ⟨gs, hmapM, rfl⟩ := h2
    obtain ⟨pg1, hpg1, hparams, hvals, hms, hlr, _, _, _, _, hep, hbe, hgr,
      htlr, htn⟩ := hmid _ t1 gi i pg p hpre hgi hp hstop
    obtain ⟨pg', hpg', hf⟩ := mapMOpt_getElem? hmapM hpg1
    rw [Option.map_eq_some'] at hf
    obtain ⟨r, hadam, rfl⟩ := hf
    rw [hparams, hvals, hms, hep, hbe, hlr, htlr, htn] at hadam
    obtain ⟨gv, hgv, hm', hv', hp'⟩ :=
      (adamGroupStep_spec hadam i p (some 0) v mv hp hgr hv hm).2 hstop
    rw [Option.some_inj] at hgv
    subst hgv
    refine ⟨_, hpg', ?_, ?_, ?_⟩
    · show r.2.2[i]? = _
      rw [hm']
      exact congrArg some (by ring)
    · show r.2.1[i]? = _
      rw [hv']
      exact congrArg some (by ring)
    · show r.1[i]? = _
      rw [hp']
      refine congrArg (fun x => some (PEntry.param { p with value := x })) ?_
      have hvv : (pg.betas.getD a.betas).2 * v + (1 - (pg.betas.getD a.betas).2) * 0 * 0 =
          (pg.betas.getD a.betas).2 * v := by ring
      rw [hvv]
      ring

/-- Witness for the amended C7: a zero-gradient step of `exSGDZero`
(momentum 1/2, weight decay 0) decays the velocity 3 to 3/2 and moves the
parameter from 1 to -1/2; a zero-gradient step of `exAdam` decays `m` from
7 to 7/2 and `v` from 3 to 1 and moves the parameter to -1097/303. -/
theorem zero_grad_step_decays_state_witness :
    (∃ o', SGD.step exEnvZero exSGDZero = some o' ∧
      ∃ pg' : ParamGroup, o'.base.param_groups[0]? = some pg' ∧
        pg'.values[0]? = some (3/2) ∧
        pg'.params[0]? = some (.param ⟨-1/2, false⟩)) ∧
    (∃ a', Adam.step exEnvZero exAdam = some a' ∧
      ∃ pg' : ParamGroup, a'.base.param_groups[0]? = some pg' ∧
        pg'.m[0]? = some (7/2) ∧ pg'.values[0]? = some 1 ∧
        pg'.params[0]? = some (.param ⟨-1097/303, false⟩)) := by
  obtain ⟨hsgd, hadam⟩ := zero_grad_step_decays_state exEnvZero (fun _ => rfl) rfl
  constructor
  · refine ⟨_, rfl, ?_⟩
    obtain ⟨pg', h1, h2, h3⟩ := hsgd exSGDZero _ 0 0
      exGroup exParam 3 rfl rfl rfl rfl rfl (by decide)
    refine ⟨pg', h1, ?_, ?_⟩
    · rw [h2]; norm_num [exSGDZero, exOpt, exGroup]
    · rw [h3]; norm_num [exSGDZero, exOpt, exParam, exGroup]
  · refine ⟨_, rfl, ?_⟩
    obtain ⟨pg', h1, h2, h3, h4⟩ := hadam exAdam _ 0 0
      exGroup exParam 3 7 rfl rfl rfl rfl rfl rfl
    refine ⟨pg', h1, ?_, ?_, ?_⟩
    · rw [h2]; norm_num [exAdam, exOpt, exGroup]
    · rw [h3]; norm_num [exAdam, exOpt, exGroup]
    · rw [h4]; norm_num [exAdam, exOpt, exParam, exGroup, exEnvZero]
